import Mathlib

/-!
Shallow embedding of the cache-coherence simulator in `src/cachesim-rs/src/main.rs`
and `src/cachesim-rs/src/delayed_q_unhashed.rs`.

Rust `i32` values are modelled as `Int`; Rust `/` and `%` on `i32` truncate toward
zero, so they are modelled by `Int.tdiv` and `Int.tmod`.  A Rust `HashMap<i32, V>`
is modelled as an association list `List (Int × V)`; the only iteration-order
sensitive operation the source performs on one is `min_by_key`, which is modelled
as a left fold keeping the first minimal element.  Code paths that `panic!` or
index out of bounds are modelled by returning `none`.  A component sending a
message `m` with delay `d` through the simulator channel is modelled by the pair
`(d, m)` appended to the list of emitted messages, in send order.
-/

namespace CacheSim

/-- Protocols, from `enum Protocol` in main.rs. -/
inductive Protocol where
  | MESI
  | Dragon
deriving DecidableEq

/-- System configuration, from `struct SystemSpec` in main.rs. -/
structure SystemSpec where
  protocol : Protocol
  word_size : Int
  address_size : Int
  mem_lat : Int
  bus_word_tf_lat : Int
  block_size : Int
  cache_size : Int
  cache_assoc : Int
deriving DecidableEq

/-- The `Default` impl for `SystemSpec` in main.rs. -/
def SystemSpec.default : SystemSpec :=
  { protocol := .MESI
    word_size := 4
    address_size := 4
    mem_lat := 100
    bus_word_tf_lat := 2
    block_size := 32
    cache_size := 4096
    cache_assoc := 2 }

/-- `SystemSpec::t_cache_to_cache_msg` in main.rs. -/
def SystemSpec.t_cache_to_cache_msg (s : SystemSpec) : Int :=
  (s.bus_word_tf_lat * s.address_size).tdiv s.word_size

/-- `SystemSpec::t_cache_to_cache_transfer` in main.rs. -/
def SystemSpec.t_cache_to_cache_transfer (s : SystemSpec) : Int :=
  (s.bus_word_tf_lat * s.block_size).tdiv s.word_size

/-- `SystemSpec::t_flush` in main.rs. -/
def SystemSpec.t_flush (s : SystemSpec) : Int := s.mem_lat

/-- `SystemSpec::t_mem_fetch` in main.rs. -/
def SystemSpec.t_mem_fetch (s : SystemSpec) : Int := s.mem_lat

/-- `struct Addr(i32)` in main.rs. -/
structure Addr where
  val : Int
deriving DecidableEq

/-- `Addr::pos` in main.rs: the `(index, tag)` decomposition of an address. -/
def Addr.pos (a : Addr) (specs : SystemSpec) : Int × Int :=
  let num_indices := specs.cache_size.tdiv (specs.block_size * specs.cache_assoc)
  (a.val.tmod num_indices, a.val.tdiv num_indices)

/-- `enum Instr` in main.rs. -/
inductive Instr where
  | Read (a : Addr)
  | Write (a : Addr)
  | Other (n : Int)
deriving DecidableEq

/-- `enum PrReq` in main.rs. -/
inductive PrReq where
  | Read (a : Addr)
  | Write (a : Addr)
deriving DecidableEq

/-- `enum BusSignal` in main.rs. -/
inductive BusSignal where
  | BusRd (a : Addr)
  | BusRdX (a : Addr)
  | BusUpd (a : Addr)
deriving DecidableEq

/-- `enum BlockState` in main.rs (MESI and Dragon states in one union). -/
inductive BlockState where
  | MESI_Invalid
  | MESI_Shared
  | MESI_Exclusive
  | MESI_Modified
  | Dragon_Invalid
  | Dragon_SharedClean
  | Dragon_SharedModified
  | Dragon_Exclusive
  | Dragon_Modified
deriving DecidableEq

/-- `struct CacheBlock` in main.rs. -/
structure CacheBlock where
  tag : Int
  state : BlockState
deriving DecidableEq

/-- `enum CacheState` in main.rs (the controller's in-flight-request state). -/
inductive CacheState where
  | Idle
  | WaitingForBus_PrReq (req : PrReq)
  | ResolvingPrReq (req : PrReq) (others : Option Bool)
  | ResolvingPrReq_ProceedNext
  | AskingCaches (req : PrReq)
  | AskingCaches_ProceedNext (req : PrReq) (others : Bool)
  | WaitingForBus_BusSig (sig : BusSignal)
  | ResolvingBusReq (sig : BusSignal)
  | ResolvingBusReq_ProceedNext
deriving DecidableEq

/-- `enum ProcMsg` in main.rs. -/
inductive ProcMsg where
  | Tick
  | PostTick
  | RequestResolved
deriving DecidableEq

/-- `enum CacheMsg` in main.rs. -/
inductive CacheMsg where
  | Tick
  | PostTick
  | PrSig (req : PrReq)
  | BusSig (sig : BusSignal)
  | BusLocked
  | BusReqResolved
  | PrReqResolved
  | CachesChecked (b : Bool)
deriving DecidableEq

/-- `enum BusMsg` in main.rs. -/
inductive BusMsg where
  | Tick
  | PostTick
  | Acquire (cache_id : Int)
  | BusSig (cache_id : Int) (sig : BusSignal)
  | SignalSent (cache_id : Int) (sig : BusSignal)
  | ReadyToFreeNext
deriving DecidableEq

/-- `enum SimMsg` in main.rs. -/
inductive SimMsg where
  | AskOtherCaches (a : Addr)
deriving DecidableEq

/-- `enum Msg` in main.rs (the union of all routed messages). -/
inductive Msg where
  | ToProc (i : Int) (m : ProcMsg)
  | ToCache (i : Int) (m : CacheMsg)
  | ProcToCache (i : Int) (m : CacheMsg)
  | CacheToProc (i : Int) (m : ProcMsg)
  | CacheToCache (i : Int) (m : CacheMsg)
  | ToBus (m : BusMsg)
  | CacheToBus (i : Int) (m : BusMsg)
  | BusToCache (i : Int) (m : CacheMsg)
  | BusToBus (m : BusMsg)
  | CacheToSim (i : Int) (m : SimMsg)
  | SimToCache (i : Int) (m : CacheMsg)
deriving DecidableEq

/-- `enum ProcState` in main.rs. -/
inductive ProcState where
  | Idle
  | WaitingForCache
  | RequestResolved
  | ExecutingOther (remaining : Int)
  | Done
deriving DecidableEq

/-- `enum BusState` in main.rs. -/
inductive BusState where
  | Unlocked_Idle
  | Unlocked_Busy
  | Locked (cache_id : Int)
  | FreeNext
deriving DecidableEq

/-! ### The per-set block map

`CacheSet.blocks` in main.rs is `HashMap<i32, (i32, CacheBlock)>`, keyed on the
tag and holding `(last_used, block)`.  It is modelled as an association list;
an entry `e : Int × Int × CacheBlock` is `(tag, last_used, block)`. -/

/-- One entry of a set's block map: `(tag, last_used, block)`. -/
abbrev BlockEntry := Int × Int × CacheBlock

/-- `HashMap::get` on the block map. -/
def lookupB : List BlockEntry → Int → Option (Int × CacheBlock)
  | [], _ => none
  | e :: es, k => if e.1 = k then some e.2 else lookupB es k

/-- `HashMap::insert` on the block map: replace the entry with this key, or add one. -/
def insertB : List BlockEntry → Int → Int × CacheBlock → List BlockEntry
  | [], k, v => [(k, v)]
  | e :: es, k, v => if e.1 = k then (k, v) :: es else e :: insertB es k v

/-- `HashMap::remove` on the block map: drop the entry with this key. -/
def removeB : List BlockEntry → Int → List BlockEntry
  | [], _ => []
  | e :: es, k => if e.1 = k then es else e :: removeB es k

/-- `get_mut(..).unwrap().0 = v` on the block map: overwrite the `last_used`
counter of the entry with this key, failing when the key is absent. -/
def touchB : List BlockEntry → Int → Int → Option (List BlockEntry)
  | [], _, _ => none
  | e :: es, k, v =>
    if e.1 = k then some ((k, v, e.2.2) :: es)
    else (touchB es k v).map (e :: ·)

/-- `get_mut(..).unwrap()` followed by `block.state = st`: overwrite the block
state of the entry with this key, failing when the key is absent. -/
def setStB : List BlockEntry → Int → BlockState → Option (List BlockEntry)
  | [], _, _ => none
  | e :: es, k, st =>
    if e.1 = k then some ((k, e.2.1, { e.2.2 with state := st }) :: es)
    else (setStB es k st).map (e :: ·)

/-- `iter().min_by_key(|(_, (last_used, _))| last_used)`: the first entry with
minimal `last_used` counter. -/
def minB : List BlockEntry → Option BlockEntry
  | [] => none
  | e :: es =>
    match minB es with
    | none => some e
    | some m => if m.2.1 < e.2.1 then some m else some e

/-- `struct CacheSet` in main.rs (without the `specs` back-reference). -/
structure CacheSet where
  blocks : List BlockEntry
  mru_ctr : Int
deriving DecidableEq

/-- `CacheSet::new` in main.rs: empty map, `mru_ctr = -1`. -/
def CacheSet.new : CacheSet := { blocks := [], mru_ctr := -1 }

/-- `struct Cache` in main.rs (without the channel handle). -/
structure Cache where
  id : Int
  state : CacheState
  specs : SystemSpec
  proc_id : Int
  bus_signals_queue : List BusSignal
  pr_sig_buffer : Option PrReq
  data : List CacheSet
  num_misses : Int
  num_hits : Int
  amt_issued_bus_traffic : Int
  num_invalidations : Int
  num_private_accesses : Int
  num_shared_accesses : Int
deriving DecidableEq

/-- `Cache::new` in main.rs.  Note the set vector is built from the range
`0..cache_size/cache_assoc`. -/
def Cache.new (id proc_id : Int) (specs : SystemSpec) : Cache :=
  { id := id
    state := .Idle
    specs := specs
    proc_id := proc_id
    bus_signals_queue := []
    pr_sig_buffer := none
    data := List.replicate (specs.cache_size.tdiv specs.cache_assoc).toNat CacheSet.new
    num_misses := 0
    num_hits := 0
    amt_issued_bus_traffic := 0
    num_invalidations := 0
    num_private_accesses := 0
    num_shared_accesses := 0 }

/-- Indexing `self.data[index]` with an `i32` index; `none` models the panic on
a negative or out-of-range index. -/
def Cache.setAt (c : Cache) (i : Int) : Option CacheSet :=
  if 0 ≤ i then c.data[i.toNat]? else none

/-- Writing back `self.data[index]`; callers establish the index in range. -/
def Cache.putSet (c : Cache) (i : Int) (s : CacheSet) : Cache :=
  { c with data := c.data.set i.toNat s }

/-- `Cache::state_of` in main.rs: the coherence state of the address, defaulting
to the protocol's `Invalid` when the tag is not resident. -/
def Cache.state_of (c : Cache) (a : Addr) : Option BlockState := do
  let (index, tag) := a.pos c.specs
  let set ← c.setAt index
  match lookupB set.blocks tag with
  | some (_, b) => pure b.state
  | none =>
    match c.specs.protocol with
    | .MESI => pure .MESI_Invalid
    | .Dragon => pure .Dragon_Invalid

/-- `Cache::access_causes_flush` in main.rs. -/
def Cache.access_causes_flush (c : Cache) (a : Addr) : Option Bool := do
  let (index, _) := a.pos c.specs
  let set ← c.setAt index
  let set_is_full := set.blocks.length = c.specs.cache_assoc.toNat
  let st ← c.state_of a
  match st with
  | .MESI_Invalid | .Dragon_Invalid => pure set_is_full
  | _ => pure false

/-- `Cache::access_uncached` in main.rs: count a miss, evict the LRU block when
the set is full (incrementing `invalidations`), then install the block with a
fresh `mru_ctr` counter. -/
def Cache.access_uncached (c : Cache) (a : Addr) (state : BlockState) : Option Cache := do
  let c := { c with num_misses := c.num_misses + 1 }
  let (index, tag) := a.pos c.specs
  let set ← c.setAt index
  let (c, set) ←
    if set.blocks.length = c.specs.cache_assoc.toNat then do
      let lru ← minB set.blocks
      pure ({ c with num_invalidations := c.num_invalidations + 1 },
            { set with blocks := removeB set.blocks lru.1 })
    else
      pure (c, set)
  let set := { set with mru_ctr := set.mru_ctr + 1 }
  let new_key := set.mru_ctr
  let set := { set with blocks := insertB set.blocks tag (new_key, { tag := tag, state := state }) }
  pure (c.putSet index set)

/-- `Cache::access_cached` in main.rs: count a hit and refresh the block's
`last_used` counter from the set's `mru_ctr`. -/
def Cache.access_cached (c : Cache) (a : Addr) : Option Cache := do
  let c := { c with num_hits := c.num_hits + 1 }
  let (index, tag) := a.pos c.specs
  let set ← c.setAt index
  let set := { set with mru_ctr := set.mru_ctr + 1 }
  let blocks ← touchB set.blocks tag set.mru_ctr
  pure (c.putSet index { set with blocks := blocks })

/-- `Cache::set_state_of` in main.rs. -/
def Cache.set_state_of (c : Cache) (a : Addr) (state : BlockState) : Option Cache := do
  let (index, tag) := a.pos c.specs
  let set ← c.setAt index
  let blocks ← setStB set.blocks tag state
  pure (c.putSet index { set with blocks := blocks })

/-! ### Cache event handlers

Each handler returns the updated cache together with the list of messages it
sent, each as `(delay, message)` in send order.  `send_bus`, `send_proc`,
`send_sim` and `send_self` in main.rs wrap the payload in `CacheToBus`,
`CacheToProc`, `CacheToSim` and `CacheToCache` respectively. -/

/-- `Cache::handle_pr_req` in main.rs: an `Idle` cache handling a processor
request. -/
def Cache.handle_pr_req (c : Cache) (req : PrReq) : Option (Cache × List (Int × Msg)) := do
  let addr := match req with | .Read a => a | .Write a => a
  let st ← c.state_of addr
  match st with
  | .MESI_Invalid =>
    match req with
    | .Read _ =>
      pure ({ c with state := .WaitingForBus_PrReq req },
            [(0, .CacheToBus c.id (.Acquire c.id))])
    | .Write a => do
      let f ← c.access_causes_flush a
      if f then
        pure ({ c with state := .WaitingForBus_PrReq req },
              [(0, .CacheToBus c.id (.Acquire c.id))])
      else do
        let c1 ← c.access_uncached a .MESI_Modified
        pure ({ c1 with state := .Idle,
                        num_private_accesses := c1.num_private_accesses + 1 },
              [(0, .CacheToBus c.id (.BusSig c.id (.BusRdX a))),
               (0, .CacheToProc c.proc_id .RequestResolved)])
  | .MESI_Shared =>
    match req with
    | .Read a => do
      let c1 ← c.access_cached a
      pure ({ c1 with state := .Idle,
                      num_shared_accesses := c1.num_shared_accesses + 1 },
            [(0, .CacheToProc c.proc_id .RequestResolved)])
    | .Write a => do
      let c1 ← c.set_state_of addr .MESI_Modified
      let c2 ← c1.access_cached a
      pure ({ c2 with state := .Idle,
                      num_shared_accesses := c2.num_shared_accesses + 1 },
            [(0, .CacheToBus c.id (.BusSig c.id (.BusRdX a))),
             (0, .CacheToProc c.proc_id .RequestResolved)])
  | .MESI_Exclusive =>
    match req with
    | .Read a => do
      let c1 ← c.access_cached a
      pure ({ c1 with state := .Idle,
                      num_private_accesses := c1.num_private_accesses + 1 },
            [(0, .CacheToProc c.proc_id .RequestResolved)])
    | .Write a => do
      let c1 ← c.set_state_of addr .MESI_Modified
      let c2 ← c1.access_cached a
      pure ({ c2 with state := .Idle,
                      num_private_accesses := c2.num_private_accesses + 1 },
            [(0, .CacheToProc c.proc_id .RequestResolved)])
  | .MESI_Modified =>
    match req with
    | .Read a | .Write a => do
      let c1 ← c.access_cached a
      pure ({ c1 with state := .Idle,
                      num_private_accesses := c1.num_private_accesses + 1 },
            [(0, .CacheToProc c.proc_id .RequestResolved)])
  | .Dragon_Invalid =>
    pure ({ c with state := .WaitingForBus_PrReq req },
          [(0, .CacheToBus c.id (.Acquire c.id))])
  | .Dragon_SharedClean =>
    match req with
    | .Read a => do
      let c1 ← c.access_cached a
      pure ({ c1 with state := .Idle,
                      num_shared_accesses := c1.num_shared_accesses + 1 },
            [(0, .CacheToProc c.proc_id .RequestResolved)])
    | .Write _ =>
      pure ({ c with state := .WaitingForBus_PrReq req,
                     num_shared_accesses := c.num_shared_accesses + 1 },
            [(0, .CacheToBus c.id (.Acquire c.id))])
  | .Dragon_SharedModified =>
    match req with
    | .Read a => do
      let c1 ← c.access_cached a
      pure ({ c1 with state := .Idle,
                      num_shared_accesses := c1.num_shared_accesses + 1 },
            [(0, .CacheToProc c.proc_id .RequestResolved)])
    | .Write _ =>
      pure ({ c with state := .WaitingForBus_PrReq req,
                     num_shared_accesses := c.num_shared_accesses + 1 },
            [(0, .CacheToBus c.id (.Acquire c.id))])
  | .Dragon_Exclusive =>
    match req with
    | .Read a => do
      let c1 ← c.access_cached a
      pure ({ c1 with state := .Idle,
                      num_private_accesses := c1.num_private_accesses + 1 },
            [(0, .CacheToProc c.proc_id .RequestResolved)])
    | .Write a => do
      let c1 ← c.set_state_of addr .Dragon_Modified
      let c2 ← c1.access_cached a
      pure ({ c2 with state := .Idle,
                      num_private_accesses := c2.num_private_accesses + 1 },
            [(0, .CacheToProc c.proc_id .RequestResolved)])
  | .Dragon_Modified =>
    match req with
    | .Read a | .Write a => do
      let c1 ← c.access_cached a
      pure ({ c1 with state := .Idle,
                      num_private_accesses := c1.num_private_accesses + 1 },
            [(0, .CacheToProc c.proc_id .RequestResolved)])

/-- `Cache::handle_pr_req_bus_locked` in main.rs: resolving a processor request
while holding the bus, possibly after the peer-presence answer
`others_have_block`.  The unreachable `(state, request)` pairs `panic!` in the
source and yield `none` here. -/
def Cache.handle_pr_req_bus_locked (c : Cache) (req : PrReq)
    (others_have_block : Option Bool) : Option (Cache × List (Int × Msg)) := do
  let addr := match req with | .Read a => a | .Write a => a
  let req_is_write := match req with | .Read _ => false | .Write _ => true
  let st ← c.state_of addr
  let block_is_invalid :=
    match st with
    | .MESI_Invalid | .Dragon_Invalid => true
    | _ => false
  let block_is_shared :=
    match st with
    | .MESI_Shared | .Dragon_SharedClean | .Dragon_SharedModified => true
    | _ => false
  let mesi : Bool := c.specs.protocol == .MESI
  let dragon : Bool := c.specs.protocol == .Dragon
  let need_to_ask_other_caches := others_have_block.isNone &&
    ((mesi && !(block_is_invalid && req_is_write)) ||
     (dragon && (block_is_invalid || (req_is_write && block_is_shared))))
  if need_to_ask_other_caches then
    pure ({ c with state := .AskingCaches req },
          [(c.specs.t_cache_to_cache_msg - 1, .CacheToSim c.id (.AskOtherCaches addr))])
  else
    match st with
    | .MESI_Invalid =>
      match req with
      | .Read a =>
        if others_have_block = some true then do
          let c1 ← c.access_uncached a .MESI_Shared
          pure ({ c1 with num_shared_accesses := c1.num_shared_accesses + 1,
                          amt_issued_bus_traffic :=
                            c1.amt_issued_bus_traffic + c.specs.block_size,
                          state := .ResolvingPrReq req none },
                [(0, .CacheToBus c.id (.BusSig c.id (.BusRd a))),
                 (c.specs.t_cache_to_cache_transfer - 1, .CacheToCache c.id .PrReqResolved)])
        else do
          let c1 ← c.access_uncached a .MESI_Exclusive
          pure ({ c1 with num_private_accesses := c1.num_private_accesses + 1,
                          amt_issued_bus_traffic :=
                            c1.amt_issued_bus_traffic + c.specs.block_size,
                          state := .ResolvingPrReq req none },
                [(0, .CacheToBus c.id (.BusSig c.id (.BusRdX a))),
                 (c.specs.t_mem_fetch - 1, .CacheToCache c.id .PrReqResolved)])
      | .Write a => do
        let c1 ← c.access_uncached a .MESI_Modified
        pure ({ c1 with amt_issued_bus_traffic :=
                          c1.amt_issued_bus_traffic + c.specs.block_size,
                        state := .ResolvingPrReq req none },
              [(0, .CacheToBus c.id (.BusSig c.id (.BusRdX a))),
               (c.specs.t_flush - 1, .CacheToCache c.id .PrReqResolved)])
    | .Dragon_Invalid =>
      match req with
      | .Read a =>
        if others_have_block = some true then do
          let c1 ← c.access_uncached a .Dragon_SharedClean
          pure ({ c1 with num_shared_accesses := c1.num_shared_accesses + 1,
                          amt_issued_bus_traffic :=
                            c1.amt_issued_bus_traffic + c.specs.block_size,
                          state := .ResolvingPrReq req none },
                [(0, .CacheToBus c.id (.BusSig c.id (.BusRd a))),
                 (c.specs.t_cache_to_cache_transfer - 1, .CacheToCache c.id .PrReqResolved)])
        else do
          let c1 ← c.access_uncached a .Dragon_Exclusive
          pure ({ c1 with num_private_accesses := c1.num_private_accesses + 1,
                          amt_issued_bus_traffic :=
                            c1.amt_issued_bus_traffic + c.specs.block_size,
                          state := .ResolvingPrReq req none },
                [(0, .CacheToBus c.id (.BusSig c.id (.BusRd a))),
                 (c.specs.t_mem_fetch - 1, .CacheToCache c.id .PrReqResolved)])
      | .Write a =>
        if others_have_block = some true then do
          let c1 ← c.access_uncached a .Dragon_SharedModified
          pure ({ c1 with num_shared_accesses := c1.num_shared_accesses + 1,
                          amt_issued_bus_traffic :=
                            c1.amt_issued_bus_traffic + c.specs.block_size,
                          state := .ResolvingPrReq req none },
                [(0, .CacheToBus c.id (.BusSig c.id (.BusRd a))),
                 (0, .CacheToBus c.id (.BusSig c.id (.BusUpd a))),
                 (0, .CacheToCache c.id .PrReqResolved)])
        else do
          let c1 ← c.access_uncached a .Dragon_Modified
          pure ({ c1 with num_private_accesses := c1.num_private_accesses + 1,
                          state := .ResolvingPrReq req none },
                [(0, .CacheToBus c.id (.BusSig c.id (.BusRd a))),
                 (0, .CacheToCache c.id .PrReqResolved)])
    | .Dragon_SharedClean =>
      match req with
      | .Write a =>
        if others_have_block = some true then do
          let c1 ← c.access_cached a
          let c2 ← c1.set_state_of addr .Dragon_SharedModified
          pure ({ c2 with amt_issued_bus_traffic :=
                            c2.amt_issued_bus_traffic + c.specs.block_size },
                [(0, .CacheToBus c.id (.BusSig c.id (.BusUpd a))),
                 (0, .CacheToCache c.id .PrReqResolved)])
        else do
          let c1 ← c.access_cached a
          let c2 ← c1.set_state_of addr .Dragon_Modified
          pure ({ c2 with amt_issued_bus_traffic :=
                            c2.amt_issued_bus_traffic + c.specs.block_size },
                [(0, .CacheToBus c.id (.BusSig c.id (.BusUpd a))),
                 (0, .CacheToCache c.id .PrReqResolved)])
      | _ => none
    | .Dragon_SharedModified =>
      match req with
      | .Write a =>
        if others_have_block = some true then do
          let c1 ← c.access_cached a
          pure ({ c1 with amt_issued_bus_traffic :=
                            c1.amt_issued_bus_traffic + c.specs.block_size },
                [(0, .CacheToBus c.id (.BusSig c.id (.BusUpd a))),
                 (0, .CacheToCache c.id .PrReqResolved)])
        else do
          let c1 ← c.access_cached a
          let c2 ← c1.set_state_of addr .Dragon_Modified
          pure ({ c2 with amt_issued_bus_traffic :=
                            c2.amt_issued_bus_traffic + c.specs.block_size },
                [(0, .CacheToBus c.id (.BusSig c.id (.BusUpd a))),
                 (0, .CacheToCache c.id .PrReqResolved)])
      | _ => none
    | _ => none

/-- `Cache::handle_bus_sig` in main.rs: an `Idle` cache snooping a bus signal. -/
def Cache.handle_bus_sig (c : Cache) (sig : BusSignal) : Option (Cache × List (Int × Msg)) := do
  let addr := match sig with | .BusRd a => a | .BusRdX a => a | .BusUpd a => a
  let st ← c.state_of addr
  match st with
  | .MESI_Invalid => pure (c, [])
  | .MESI_Shared =>
    match sig with
    | .BusRdX _ => do
      let c1 ← c.set_state_of addr .MESI_Invalid
      pure (c1, [])
    | _ => pure (c, [])
  | .MESI_Exclusive =>
    match sig with
    | .BusRd _ => do
      let c1 ← c.set_state_of addr .MESI_Shared
      pure (c1, [])
    | .BusRdX _ =>
      pure ({ c with state := .WaitingForBus_BusSig sig },
            [(0, .CacheToBus c.id (.Acquire c.id))])
    | _ => pure (c, [])
  | .MESI_Modified =>
    match sig with
    | .BusRd _ | .BusRdX _ =>
      pure ({ c with state := .WaitingForBus_BusSig sig },
            [(0, .CacheToBus c.id (.Acquire c.id))])
    | _ => pure (c, [])
  | .Dragon_SharedModified =>
    match sig with
    | .BusUpd _ => do
      let c1 ← c.set_state_of addr .Dragon_SharedClean
      pure (c1, [])
    | _ => pure (c, [])
  | .Dragon_Modified =>
    match sig with
    | .BusRd _ => do
      let c1 ← c.set_state_of addr .Dragon_SharedModified
      pure (c1, [])
    | .BusUpd _ => do
      let c1 ← c.set_state_of addr .Dragon_SharedClean
      pure (c1, [])
    | _ => pure (c, [])
  | _ => pure (c, [])

/-- `Cache::handle_bus_sig_bus_locked` in main.rs: performing the snoop-forced
flush once the bus is held; impossible pairs `panic!` and yield `none`. -/
def Cache.handle_bus_sig_bus_locked (c : Cache) (sig : BusSignal) :
    Option (Cache × List (Int × Msg)) := do
  let addr := match sig with | .BusRd a => a | .BusRdX a => a | .BusUpd a => a
  let st ← c.state_of addr
  match st with
  | .MESI_Exclusive =>
    match sig with
    | .BusRdX _ => do
      let c1 ← c.set_state_of addr .MESI_Invalid
      pure ({ c1 with amt_issued_bus_traffic :=
                        c1.amt_issued_bus_traffic + c.specs.block_size },
            [(c.specs.t_flush - 1, .CacheToCache c.id .BusReqResolved)])
    | _ => none
  | .MESI_Modified =>
    match sig with
    | .BusRd _ => do
      let c1 ← c.set_state_of addr .MESI_Shared
      pure ({ c1 with amt_issued_bus_traffic :=
                        c1.amt_issued_bus_traffic + c.specs.block_size },
            [(c.specs.t_flush - 1, .CacheToCache c.id .BusReqResolved)])
    | .BusRdX _ => do
      let c1 ← c.set_state_of addr .MESI_Invalid
      pure ({ c1 with amt_issued_bus_traffic :=
                        c1.amt_issued_bus_traffic + c.specs.block_size },
            [(c.specs.t_flush - 1, .CacheToCache c.id .BusReqResolved)])
    | _ => none
  | _ => none

/-! ### Bus arbiter -/

/-- `struct Bus` in main.rs (without the channel handle). -/
structure Bus where
  state : BusState
  n : Int
  specs : SystemSpec
  cache_ids : List Int
  signal_queue : List (BusSignal × Int)
  lock_queue : List Int
deriving DecidableEq

/-- `Bus::send_caches` in main.rs: send a message to every cache except one. -/
def Bus.send_caches (b : Bus) (m : CacheMsg) (delay : Int) (except : Int) :
    List (Int × Msg) :=
  (b.cache_ids.filter (fun i => except ≠ i)).map (fun i => (delay, Msg.BusToCache i m))

/-- The `BusMsg::Tick` arm of the `Unlocked_Idle` state of `Bus::handle_msg`
in main.rs, split out as its own definition: pop and broadcast a queued signal
if any, otherwise grant a queued lock if any. -/
def Bus.tick_unlocked_idle (b : Bus) : Bus × List (Int × Msg) :=
  match b.signal_queue with
  | (sig, cache_id) :: rest =>
    let t := b.specs.t_cache_to_cache_msg - 1
    ({ b with signal_queue := rest, state := .Unlocked_Busy },
     b.send_caches (.BusSig sig) t cache_id ++
       [(t, .BusToBus (.SignalSent cache_id sig))])
  | [] =>
    match b.lock_queue with
    | cache_id :: rest =>
      ({ b with lock_queue := rest, state := .Locked cache_id },
       [(0, .BusToCache cache_id .BusLocked)])
    | [] => (b, [])

/-- `impl MsgHandler<BusMsg> for Bus` in main.rs, as one flat match on
`(state, message)`; `panic!` arms yield `none`. -/
def Bus.handle_msg (b : Bus) (msg : BusMsg) : Option (Bus × List (Int × Msg)) :=
  match b.state, msg with
  | .Unlocked_Idle, .Tick => some b.tick_unlocked_idle
  | .Unlocked_Idle, .PostTick => some (b, [])
  | .Unlocked_Idle, .Acquire cache_id =>
    some ({ b with state := .Locked cache_id },
          [(0, .BusToCache cache_id .BusLocked)])
  | .Unlocked_Idle, .BusSig cache_id sig =>
    let t := b.specs.t_cache_to_cache_msg - 1
    some ({ b with state := .Unlocked_Busy },
          [(t, .BusToBus (.SignalSent cache_id sig))])
  | .Unlocked_Idle, _ => none
  | .Unlocked_Busy, .Tick => some (b, [])
  | .Unlocked_Busy, .PostTick => some (b, [])
  | .Unlocked_Busy, .Acquire cache_id =>
    some ({ b with lock_queue := b.lock_queue ++ [cache_id] }, [])
  | .Unlocked_Busy, .BusSig cache_id sig =>
    some ({ b with signal_queue := b.signal_queue ++ [(sig, cache_id)] }, [])
  | .Unlocked_Busy, .SignalSent cache_id sig =>
    some ({ b with state := .FreeNext }, b.send_caches (.BusSig sig) 0 cache_id)
  | .Unlocked_Busy, .ReadyToFreeNext => none
  | .Locked _, .Tick => some (b, [])
  | .Locked _, .PostTick => some (b, [])
  | .Locked _, .Acquire cache_id =>
    some ({ b with lock_queue := b.lock_queue ++ [cache_id] }, [])
  | .Locked _, .BusSig cache_id sig =>
    some ({ b with signal_queue := b.signal_queue ++ [(sig, cache_id)] }, [])
  | .Locked _, .SignalSent cache_id sig =>
    some ({ b with state := .Locked cache_id }, b.send_caches (.BusSig sig) 0 cache_id)
  | .Locked _, .ReadyToFreeNext => some ({ b with state := .FreeNext }, [])
  | .FreeNext, .Tick => some (b, [])
  | .FreeNext, .PostTick => some ({ b with state := .Unlocked_Idle }, [])
  | .FreeNext, .Acquire cache_id =>
    some ({ b with lock_queue := b.lock_queue ++ [cache_id] }, [])
  | .FreeNext, .BusSig cache_id sig =>
    some ({ b with signal_queue := b.signal_queue ++ [(sig, cache_id)] }, [])
  | .FreeNext, _ => none

/-! ### Delayed event queue (delayed_q_unhashed.rs) -/

/-- `struct DelayedQ` in delayed_q_unhashed.rs: the clock, the queue of
`(target_cycle, message)` pairs, and the cached first/last target keys. -/
structure DelayedQ (M : Type) where
  time : Int
  q : List (Int × M)
  key_first : Option Int
  key_last : Option Int

/-- `DelayedQ::update_keys` in delayed_q_unhashed.rs. -/
def DelayedQ.update_keys {M : Type} (dq : DelayedQ M) : DelayedQ M :=
  { dq with key_first := dq.q.head?.map (·.1), key_last := dq.q.getLast?.map (·.1) }

/-- `DelayedQ::new` in delayed_q_unhashed.rs. -/
def DelayedQ.new (M : Type) : DelayedQ M :=
  { time := 0, q := [], key_first := none, key_last := none }

/-- The middle case of `DelQSender::send`: scan for the first entry whose target
is strictly greater and insert just before it (i.e. after every entry with
target `≤ t`). -/
def insertByKey {M : Type} : List (Int × M) → Int → M → List (Int × M)
  | [], t, m => [(t, m)]
  | x :: xs, t, m => if x.1 > t then (t, m) :: x :: xs else x :: insertByKey xs t m

/-- `DelQSender::send` in delayed_q_unhashed.rs: insert a message with delay `d`
at target cycle `time + d`, behind all messages with an equal or smaller target.
`2147483647` is `i32::MAX` from the `unwrap_or` on `key_first`. -/
def DelayedQ.send {M : Type} (dq : DelayedQ M) (d : Int) (msg : M) : DelayedQ M :=
  let t := dq.time + d
  let q2 :=
    if t ≥ dq.key_last.getD 0 then dq.q ++ [(t, msg)]
    else if t < dq.key_first.getD 2147483647 then (t, msg) :: dq.q
    else insertByKey dq.q t msg
  DelayedQ.update_keys { dq with q := q2 }

/-- `DelayedQ::try_fetch` in delayed_q_unhashed.rs: return the front message
only when its target cycle equals the current time. -/
def DelayedQ.try_fetch {M : Type} (dq : DelayedQ M) : Option M × DelayedQ M :=
  match dq.q with
  | (t, m) :: rest =>
    if t ≠ dq.time then (none, dq)
    else (some m, DelayedQ.update_keys { dq with q := rest })
  | [] => (none, dq.update_keys)

/-- `DelayedQ::update_time` in delayed_q_unhashed.rs. -/
def DelayedQ.update_time {M : Type} (dq : DelayedQ M) (new_time : Int) : DelayedQ M :=
  { dq with time := new_time }

/-! ### Processor -/

/-- `struct Processor` in main.rs (without the channel handle). -/
structure Processor where
  id : Int
  state : ProcState
  instructions : List Instr
  cache_id : Int
  num_loads : Int
  num_stores : Int
  num_wait_cycles : Int
deriving DecidableEq

/-- `Processor::new` in main.rs. -/
def Processor.new (id cache_id : Int) (instructions : List Instr) : Processor :=
  { id := id, state := .Idle, instructions := instructions, cache_id := cache_id,
    num_loads := 0, num_stores := 0, num_wait_cycles := 0 }

/-- `Processor::proceed` in main.rs. -/
def Processor.proceed (p : Processor) : Processor :=
  if p.instructions.length = 0 then { p with state := .Done }
  else { p with state := .Idle }

/-- `impl MsgHandler<ProcMsg> for Processor` in main.rs.  In state `Idle` any
message pops the next instruction (`unwrap` panics on an empty stream, hence
`none`); the `panic!` arms also yield `none`. -/
def Processor.handle_msg (p : Processor) (msg : ProcMsg) :
    Option (Processor × List (Int × Msg)) :=
  match p.state with
  | .Idle =>
    match p.instructions with
    | [] => none
    | instr :: rest =>
      match instr with
      | .Read addr =>
        some ({ p with state := .WaitingForCache, instructions := rest,
                       num_loads := p.num_loads + 1 },
              [(0, .ProcToCache p.cache_id (.PrSig (.Read addr)))])
      | .Write addr =>
        some ({ p with state := .WaitingForCache, instructions := rest,
                       num_stores := p.num_stores + 1 },
              [(0, .ProcToCache p.cache_id (.PrSig (.Write addr)))])
      | .Other time =>
        some ({ p with state := .ExecutingOther (time - 1), instructions := rest }, [])
  | .WaitingForCache =>
    match msg with
    | .RequestResolved => some ({ p with state := .RequestResolved }, [])
    | .Tick => some ({ p with num_wait_cycles := p.num_wait_cycles + 1 }, [])
    | .PostTick => some ({ p with num_wait_cycles := p.num_wait_cycles + 1 }, [])
  | .RequestResolved =>
    match msg with
    | .Tick => some (p, [])
    | .PostTick => some (p.proceed, [])
    | .RequestResolved => none
  | .ExecutingOther time =>
    match msg with
    | .Tick => some ({ p with state := .ExecutingOther (time - 1) }, [])
    | .PostTick => if time = 0 then some (p.proceed, []) else some (p, [])
    | .RequestResolved => none
  | .Done => some (p, [])

/-- One simulated cycle of a single processor, as driven by `simulate` in
main.rs: the tick phase skips processors that are `Done` or `WaitingForCache`;
during the drain the cache delivers at most one `RequestResolved` (`resolved`
says whether it does, and it always arrives after the processor's own tick,
because same-cycle messages are delivered in enqueue order); then the post-tick
phase delivers `PostTick` unconditionally. -/
def procCycle (p : Processor) (resolved : Bool) : Option Processor := do
  let p1 ←
    if p.state = .Done ∨ p.state = .WaitingForCache then pure p
    else (p.handle_msg .Tick).map (·.1)
  let p2 ←
    if resolved then (p1.handle_msg .RequestResolved).map (·.1)
    else pure p1
  (p2.handle_msg .PostTick).map (·.1)

/-- Run a processor through one cycle per entry of `rs`. -/
def runProc (p : Processor) : List Bool → Option Processor
  | [] => some p
  | r :: rs => (procCycle p r).bind (fun q => runProc q rs)

/-- Total compute cycles of the `Other` instructions in a stream. -/
def sumOther : List Instr → Int
  | [] => 0
  | .Other n :: rest => n + sumOther rest
  | .Read _ :: rest => sumOther rest
  | .Write _ :: rest => sumOther rest

/-- Cycles already accounted for by the current processor state: an
`ExecutingOther t` state still owes `t` cycles of its instruction's budget; a
processor waiting on its cache has pre-counted the current cycle's wait. -/
def procSlack : ProcState → Int
  | .ExecutingOther t => t
  | .WaitingForCache => 1
  | .RequestResolved => 1
  | .Idle => 0
  | .Done => 0

/-- The conservation potential of a processor: counted work minus pending
slack minus the compute budget of the instructions not yet consumed.  It rises
by exactly one per simulated cycle until the processor is `Done`. -/
def procPot (p : Processor) : Int :=
  p.num_loads + p.num_stores + p.num_wait_cycles - procSlack p.state -
    sumOther p.instructions

/-! ### Concrete fixtures used to instantiate the theorems -/

/-- A single-set MESI cache holding address 0 in `Shared`. -/
def cacheShared : Cache :=
  { Cache.new 0 0 SystemSpec.default with
    data := [{ blocks := [(0, (0, { tag := 0, state := .MESI_Shared }))], mru_ctr := 0 }] }

/-- A single-set MESI cache holding address 0 in `Exclusive`. -/
def cacheExclusive : Cache :=
  { Cache.new 0 0 SystemSpec.default with
    data := [{ blocks := [(0, (0, { tag := 0, state := .MESI_Exclusive }))], mru_ctr := 0 }] }

/-- A single-set MESI cache with an empty set (address 0 is `Invalid`). -/
def cacheEmptySet : Cache :=
  { Cache.new 0 0 SystemSpec.default with data := [CacheSet.new] }

/-- A full single-set MESI cache: two resident Modified blocks (tags 1 and 2),
so any access to a fresh tag in set 0 must evict. -/
def cacheFullSet : Cache :=
  { Cache.new 0 0 SystemSpec.default with
    data := [{ blocks := [(1, (3, { tag := 1, state := .MESI_Modified })),
                          (2, (5, { tag := 2, state := .MESI_Modified }))],
               mru_ctr := 5 }] }

/-- A bus that is `Unlocked_Idle` while a broadcast is still queued. -/
def busPendingSig : Bus :=
  { state := .Unlocked_Idle, n := 2, specs := SystemSpec.default, cache_ids := [0, 1],
    signal_queue := [(.BusRd ⟨0⟩, 0)], lock_queue := [] }

/-- A small delayed queue fixture: three sends at mixed delays. -/
def dqFixture : DelayedQ Int :=
  ((DelayedQ.new Int).send 1 10).send 0 20

/-- The queue entries are sorted by target cycle (non-decreasing). -/
def TimeSorted {M : Type} (l : List (Int × M)) : Prop :=
  List.Pairwise (fun x y => x.1 ≤ y.1) l

/-- Well-formedness of a `DelayedQ`: the entries are sorted by target cycle and
the cached first/last keys agree with the queue.  This holds for the empty
queue of `DelayedQ::new` and is preserved by `send`. -/
def DelayedQWF {M : Type} (dq : DelayedQ M) : Prop :=
  TimeSorted dq.q ∧ dq.key_first = dq.q.head?.map (·.1) ∧
    dq.key_last = dq.q.getLast?.map (·.1)

instance {M : Type} (l : List (Int × M)) : Decidable (TimeSorted l) :=
  List.instDecidablePairwise l

instance {M : Type} (dq : DelayedQ M) : Decidable (DelayedQWF dq) :=
  inferInstanceAs (Decidable (_ ∧ _ ∧ _))

/-! ### Helper lemmas about the block map and set indexing -/

theorem lookupB_insertB_self (l : List BlockEntry) (k : Int) (v : Int × CacheBlock) :
    lookupB (insertB l k v) k = some v := by
  induction l with
  | nil => simp [insertB, lookupB]
  | cons e es ih =>
    by_cases h : e.1 = k
    · simp [insertB, h, lookupB]
    · simp [insertB, h, lookupB, ih]

theorem mem_insertB (l : List BlockEntry) (k : Int) (v : Int × CacheBlock) :
    ∀ e ∈ insertB l k v, e.1 ≠ k → e ∈ l := by
  induction l with
  | nil => intro e he hne; simp [insertB] at he; simp [he] at hne
  | cons x xs ih =>
    intro e he hne
    by_cases h : x.1 = k
    · simp [insertB, h] at he
      rcases he with he | he
      · simp [he] at hne
      · exact List.mem_cons_of_mem x he
    · simp [insertB, h] at he
      rcases he with he | he
      · exact he ▸ List.mem_cons_self x xs
      · exact List.mem_cons_of_mem x (ih e he hne)

theorem mem_removeB (l : List BlockEntry) (k : Int) :
    ∀ e ∈ removeB l k, e ∈ l := by
  induction l with
  | nil => intro e he; simp [removeB] at he
  | cons x xs ih =>
    intro e he
    by_cases h : x.1 = k
    · simp [removeB, h] at he
      exact List.mem_cons_of_mem x he
    · simp [removeB, h] at he
      rcases he with he | he
      · exact he ▸ List.mem_cons_self x xs
      · exact List.mem_cons_of_mem x (ih e he)

theorem minB_mem (l : List BlockEntry) (m : BlockEntry) (h : minB l = some m) :
    m ∈ l := by
  induction l generalizing m with
  | nil => simp [minB] at h
  | cons e es ih =>
    cases hm : minB es with
    | none =>
      simp only [minB, hm] at h
      exact (Option.some_inj.mp h) ▸ List.mem_cons_self e es
    | some m2 =>
      simp only [minB, hm] at h
      by_cases hlt : m2.2.1 < e.2.1
      · rw [if_pos hlt] at h
        exact List.mem_cons_of_mem e ((Option.some_inj.mp h) ▸ ih m2 hm)
      · rw [if_neg hlt] at h
        exact (Option.some_inj.mp h) ▸ List.mem_cons_self e es

theorem minB_isSome (l : List BlockEntry) (h : l ≠ []) : ∃ m, minB l = some m := by
  cases l with
  | nil => exact absurd rfl h
  | cons e es =>
    cases hm : minB es with
    | none => exact ⟨e, by simp only [minB, hm]⟩
    | some m2 =>
      by_cases hlt : m2.2.1 < e.2.1
      · exact ⟨m2, by simp only [minB, hm]; rw [if_pos hlt]⟩
      · exact ⟨e, by simp only [minB, hm]; rw [if_neg hlt]⟩

theorem minB_min (l : List BlockEntry) (m : BlockEntry) (h : minB l = some m) :
    ∀ e ∈ l, m.2.1 ≤ e.2.1 := by
  induction l generalizing m with
  | nil => simp [minB] at h
  | cons e es ih =>
    intro x hx
    cases hm : minB es with
    | none =>
      simp only [minB, hm] at h
      cases es with
      | nil =>
        simp at hx
        simp [Option.some_inj.mp h, hx]
      | cons y ys =>
        exfalso
        obtain ⟨m3, hm3⟩ := minB_isSome (y :: ys) (by simp)
        rw [hm3] at hm; cases hm
    | some m2 =>
      simp only [minB, hm] at h
      rcases List.mem_cons.mp hx with hx | hx
      · by_cases hlt : m2.2.1 < e.2.1
        · rw [if_pos hlt] at h
          rw [← Option.some_inj.mp h, hx]
          exact le_of_lt hlt
        · rw [if_neg hlt] at h
          rw [← Option.some_inj.mp h, hx]
      · by_cases hlt : m2.2.1 < e.2.1
        · rw [if_pos hlt] at h
          exact (Option.some_inj.mp h) ▸ ih m2 hm x hx
        · rw [if_neg hlt] at h
          rw [← Option.some_inj.mp h]
          exact le_trans (not_lt.mp hlt) (ih m2 hm x hx)

theorem touchB_spec (l : List BlockEntry) (k v u : Int) (b : CacheBlock)
    (h : lookupB l k = some (u, b)) :
    ∃ l2, touchB l k v = some l2 ∧ lookupB l2 k = some (v, b) ∧
      ∀ e ∈ l2, e.1 ≠ k → e ∈ l := by
  induction l with
  | nil => simp [lookupB] at h
  | cons x xs ih =>
    obtain ⟨xk, xu, xb⟩ := x
    by_cases hx : xk = k
    · simp only [lookupB, if_pos hx] at h
      have hb : xb = b := congrArg (·.2) (Option.some_inj.mp h)
      refine ⟨(k, v, xb) :: xs, by simp [touchB, hx], by simp [lookupB, hb], ?_⟩
      intro e he hne
      rcases List.mem_cons.mp he with he | he
      · simp [he] at hne
      · exact List.mem_cons_of_mem _ he
    · simp only [lookupB, if_neg hx] at h
      obtain ⟨l2, hl2, hlk, hmem⟩ := ih h
      refine ⟨(xk, xu, xb) :: l2, by simp [touchB, hx, hl2],
        by simp [lookupB, hx, hlk], ?_⟩
      intro e he hne
      rcases List.mem_cons.mp he with he | he
      · exact he ▸ List.mem_cons_self _ xs
      · exact List.mem_cons_of_mem _ (hmem e he hne)

theorem setStB_spec (l : List BlockEntry) (k : Int) (st : BlockState) (u : Int) (b : CacheBlock)
    (h : lookupB l k = some (u, b)) :
    ∃ l2, setStB l k st = some l2 ∧ lookupB l2 k = some (u, { b with state := st }) ∧
      ∀ e ∈ l2, e.1 ≠ k → e ∈ l := by
  induction l with
  | nil => simp [lookupB] at h
  | cons x xs ih =>
    obtain ⟨xk, xu, xb⟩ := x
    by_cases hx : xk = k
    · simp only [lookupB, if_pos hx] at h
      have hu : xu = u := congrArg (·.1) (Option.some_inj.mp h)
      have hb : xb = b := congrArg (·.2) (Option.some_inj.mp h)
      refine ⟨(k, xu, { xb with state := st }) :: xs, by simp [setStB, hx],
        by simp [lookupB, hu, hb], ?_⟩
      intro e he hne
      rcases List.mem_cons.mp he with he | he
      · simp [he] at hne
      · exact List.mem_cons_of_mem _ he
    · simp only [lookupB, if_neg hx] at h
      obtain ⟨l2, hl2, hlk, hmem⟩ := ih h
      refine ⟨(xk, xu, xb) :: l2, by simp [setStB, hx, hl2],
        by simp [lookupB, hx, hlk], ?_⟩
      intro e he hne
      rcases List.mem_cons.mp he with he | he
      · exact he ▸ List.mem_cons_self _ xs
      · exact List.mem_cons_of_mem _ (hmem e he hne)

theorem setAt_putSet_self (c : Cache) (i : Int) (s0 s1 : CacheSet)
    (h : c.setAt i = some s0) : (c.putSet i s1).setAt i = some s1 := by
  unfold Cache.setAt at h ⊢
  by_cases hi : 0 ≤ i
  · rw [if_pos hi] at h ⊢
    unfold Cache.putSet
    simp only
    have hlt : i.toNat < c.data.length := (List.getElem?_eq_some.1 h).1
    exact List.getElem?_set_eq_of_lt s1 hlt
  · rw [if_neg hi] at h; cases h

theorem setAt_data_eq (c c2 : Cache) (i : Int) (h : c.data = c2.data) :
    c.setAt i = c2.setAt i := by
  unfold Cache.setAt
  rw [h]

theorem state_of_mk (c : Cache) (a : Addr) (i t : Int) (set : CacheSet) (u : Int)
    (b : CacheBlock) (hpos : a.pos c.specs = (i, t)) (hset : c.setAt i = some set)
    (hlk : lookupB set.blocks t = some (u, b)) : c.state_of a = some b.state := by
  simp [Cache.state_of, hpos, hset, hlk]

theorem state_of_resident (c : Cache) (a : Addr) (s : BlockState)
    (h : c.state_of a = some s) (h1 : s ≠ .MESI_Invalid) (h2 : s ≠ .Dragon_Invalid) :
    ∃ i t set u b, a.pos c.specs = (i, t) ∧ c.setAt i = some set ∧
      lookupB set.blocks t = some (u, b) ∧ b.state = s := by
  obtain ⟨i, t, hpos⟩ : ∃ i t, a.pos c.specs = (i, t) := ⟨_, _, rfl⟩
  cases hset : c.setAt i with
  | none => simp [Cache.state_of, hpos, hset] at h
  | some set =>
    cases hlk : lookupB set.blocks t with
    | none =>
      exfalso
      cases hp : c.specs.protocol with
      | MESI => simp [Cache.state_of, hpos, hset, hlk, hp] at h; exact h1 h.symm
      | Dragon => simp [Cache.state_of, hpos, hset, hlk, hp] at h; exact h2 h.symm
    | some ub =>
      refine ⟨i, t, set, ub.1, ub.2, hpos, hset, by simp [hlk], ?_⟩
      simp [Cache.state_of, hpos, hset, hlk] at h
      exact h

theorem state_of_invalid_elim (c : Cache) (a : Addr) (s : BlockState)
    (h : c.state_of a = some s) :
    ∃ i t set, a.pos c.specs = (i, t) ∧ c.setAt i = some set := by
  obtain ⟨i, t, hpos⟩ : ∃ i t, a.pos c.specs = (i, t) := ⟨_, _, rfl⟩
  cases hset : c.setAt i with
  | none => simp [Cache.state_of, hpos, hset] at h
  | some set => exact ⟨i, t, set, hpos, hset⟩

theorem access_cached_spec (c : Cache) (a : Addr) (i t : Int) (set : CacheSet)
    (u : Int) (b : CacheBlock) (hpos : a.pos c.specs = (i, t))
    (hset : c.setAt i = some set) (hlk : lookupB set.blocks t = some (u, b)) :
    ∃ l2, touchB set.blocks t (set.mru_ctr + 1) = some l2 ∧
      c.access_cached a =
        some (({ c with num_hits := c.num_hits + 1 }).putSet i
          { blocks := l2, mru_ctr := set.mru_ctr + 1 }) ∧
      lookupB l2 t = some (set.mru_ctr + 1, b) ∧
      (∀ e ∈ l2, e.1 ≠ t → e ∈ set.blocks) ∧
      (({ c with num_hits := c.num_hits + 1 }).putSet i
        { blocks := l2, mru_ctr := set.mru_ctr + 1 }).state_of a = some b.state := by
  obtain ⟨l2, htb, hlk2, hmem⟩ := touchB_spec set.blocks t (set.mru_ctr + 1) u b hlk
  refine ⟨l2, htb, ?_, hlk2, hmem, ?_⟩
  · have hset2 : ({ c with num_hits := c.num_hits + 1 } : Cache).setAt i = some set := hset
    simp [Cache.access_cached, hpos, hset2, htb]
  · exact state_of_mk _ a i t _ (set.mru_ctr + 1) b hpos
      (setAt_putSet_self ({ c with num_hits := c.num_hits + 1 }) i set _ hset) hlk2

theorem set_state_of_spec (c : Cache) (a : Addr) (i t : Int) (set : CacheSet)
    (u : Int) (b : CacheBlock) (st : BlockState) (hpos : a.pos c.specs = (i, t))
    (hset : c.setAt i = some set) (hlk : lookupB set.blocks t = some (u, b)) :
    ∃ l2, setStB set.blocks t st = some l2 ∧
      c.set_state_of a st = some (c.putSet i { set with blocks := l2 }) ∧
      lookupB l2 t = some (u, { b with state := st }) ∧
      (∀ e ∈ l2, e.1 ≠ t → e ∈ set.blocks) ∧
      (c.putSet i { set with blocks := l2 }).state_of a = some st := by
  obtain ⟨l2, hsb, hlk2, hmem⟩ := setStB_spec set.blocks t st u b hlk
  exact ⟨l2, hsb, by simp [Cache.set_state_of, hpos, hset, hsb], hlk2, hmem,
    state_of_mk _ a i t _ u { b with state := st } hpos
      (setAt_putSet_self c i set _ hset) hlk2⟩

theorem access_uncached_full_spec (c : Cache) (a : Addr) (st : BlockState)
    (i t : Int) (set : CacheSet) (hpos : a.pos c.specs = (i, t))
    (hset : c.setAt i = some set)
    (hfull : set.blocks.length = c.specs.cache_assoc.toNat)
    (hne : set.blocks ≠ []) :
    ∃ lru, minB set.blocks = some lru ∧
      c.access_uncached a st = some
        (({ c with num_misses := c.num_misses + 1,
                   num_invalidations := c.num_invalidations + 1 }).putSet i
          { blocks := insertB (removeB set.blocks lru.1) t
                        (set.mru_ctr + 1, { tag := t, state := st }),
            mru_ctr := set.mru_ctr + 1 }) ∧
      (({ c with num_misses := c.num_misses + 1,
                 num_invalidations := c.num_invalidations + 1 }).putSet i
        { blocks := insertB (removeB set.blocks lru.1) t
                      (set.mru_ctr + 1, { tag := t, state := st }),
          mru_ctr := set.mru_ctr + 1 }).state_of a = some st := by
  obtain ⟨lru, hlru⟩ := minB_isSome set.blocks hne
  refine ⟨lru, hlru, ?_, ?_⟩
  · have hset2 : ({ c with num_misses := c.num_misses + 1 } : Cache).setAt i = some set := hset
    simp [Cache.access_uncached, hpos, hset2, hfull, hlru]
  · have hset3 : ({ c with num_misses := c.num_misses + 1, num_invalidations := c.num_invalidations + 1 } : Cache).setAt i = some set := hset
    exact state_of_mk _ a i t _ (set.mru_ctr + 1) { tag := t, state := st } hpos
      (setAt_putSet_self _ i set _ hset3) (lookupB_insertB_self _ t _)

theorem access_uncached_nf_spec (c : Cache) (a : Addr) (st : BlockState)
    (i t : Int) (set : CacheSet) (hpos : a.pos c.specs = (i, t))
    (hset : c.setAt i = some set)
    (hnf : set.blocks.length ≠ c.specs.cache_assoc.toNat) :
    c.access_uncached a st = some
      (({ c with num_misses := c.num_misses + 1 }).putSet i
        { blocks := insertB set.blocks t (set.mru_ctr + 1, { tag := t, state := st }),
          mru_ctr := set.mru_ctr + 1 }) ∧
    (({ c with num_misses := c.num_misses + 1 }).putSet i
      { blocks := insertB set.blocks t (set.mru_ctr + 1, { tag := t, state := st }),
        mru_ctr := set.mru_ctr + 1 }).state_of a = some st := by
  have hset2 : ({ c with num_misses := c.num_misses + 1 } : Cache).setAt i = some set := hset
  refine ⟨by simp [Cache.access_uncached, hpos, hset2, hnf], ?_⟩
  exact state_of_mk _ a i t _ (set.mru_ctr + 1) { tag := t, state := st } hpos
    (setAt_putSet_self ({ c with num_misses := c.num_misses + 1 }) i set _ hset)
    (lookupB_insertB_self _ t _)

/-! ### Claim theorems -/

/-- C1: For a MESI cache controller in state `Idle` handling a processor request
for address `a`, `Cache::handle_pr_req` follows the spec table.  When
`state_of(a)` is `Invalid`: a `Read` acquires the bus; a `Write` with the set
full acquires the bus; a `Write` with a free way issues `BusRdX(a)`, installs
`a` as `Modified`, and completes in the same cycle (both emitted messages have
delay 0 and no `CacheToSim` peer query is sent).  When `Shared`: a `Read`
completes as a hit; a `Write` issues `BusRdX(a)`, transitions the block to
`Modified`, and completes.  When `Exclusive`: a `Read` is a hit; a `Write`
silently transitions to `Modified` (the only message is the completion, so no
bus signal).  When `Modified`: both are hits. -/
theorem mesi_handle_pr_req_table (c : Cache) (a : Addr)
    (hM : c.specs.protocol = .MESI) (hIdle : c.state = .Idle) :
    (c.state_of a = some .MESI_Invalid →
      (c.handle_pr_req (.Read a) =
        some ({ c with state := .WaitingForBus_PrReq (.Read a) },
              [(0, .CacheToBus c.id (.Acquire c.id))])) ∧
      (c.access_causes_flush a = some true →
        c.handle_pr_req (.Write a) =
          some ({ c with state := .WaitingForBus_PrReq (.Write a) },
                [(0, .CacheToBus c.id (.Acquire c.id))])) ∧
      (c.access_causes_flush a = some false →
        (c.handle_pr_req (.Write a)).map (fun r => r.2) =
          some [(0, .CacheToBus c.id (.BusSig c.id (.BusRdX a))),
                (0, .CacheToProc c.proc_id .RequestResolved)] ∧
        (c.handle_pr_req (.Write a)).map (fun r => r.1.state_of a) =
          some (some .MESI_Modified) ∧
        (c.handle_pr_req (.Write a)).map (fun r => r.1.state) = some .Idle)) ∧
    (c.state_of a = some .MESI_Shared →
      ((c.handle_pr_req (.Read a)).map (fun r => r.2) =
          some [(0, .CacheToProc c.proc_id .RequestResolved)] ∧
        (c.handle_pr_req (.Read a)).map (fun r => r.1.num_hits) = some (c.num_hits + 1) ∧
        (c.handle_pr_req (.Read a)).map (fun r => r.1.state_of a) =
          some (some .MESI_Shared) ∧
        (c.handle_pr_req (.Read a)).map (fun r => r.1.state) = some .Idle) ∧
      ((c.handle_pr_req (.Write a)).map (fun r => r.2) =
          some [(0, .CacheToBus c.id (.BusSig c.id (.BusRdX a))),
                (0, .CacheToProc c.proc_id .RequestResolved)] ∧
        (c.handle_pr_req (.Write a)).map (fun r => r.1.state_of a) =
          some (some .MESI_Modified) ∧
        (c.handle_pr_req (.Write a)).map (fun r => r.1.state) = some .Idle)) ∧
    (c.state_of a = some .MESI_Exclusive →
      ((c.handle_pr_req (.Read a)).map (fun r => r.2) =
          some [(0, .CacheToProc c.proc_id .RequestResolved)] ∧
        (c.handle_pr_req (.Read a)).map (fun r => r.1.num_hits) = some (c.num_hits + 1) ∧
        (c.handle_pr_req (.Read a)).map (fun r => r.1.state_of a) =
          some (some .MESI_Exclusive)) ∧
      ((c.handle_pr_req (.Write a)).map (fun r => r.2) =
          some [(0, .CacheToProc c.proc_id .RequestResolved)] ∧
        (c.handle_pr_req (.Write a)).map (fun r => r.1.state_of a) =
          some (some .MESI_Modified) ∧
        (c.handle_pr_req (.Write a)).map (fun r => r.1.state) = some .Idle)) ∧
    (c.state_of a = some .MESI_Modified →
      ((c.handle_pr_req (.Read a)).map (fun r => r.2) =
          some [(0, .CacheToProc c.proc_id .RequestResolved)] ∧
        (c.handle_pr_req (.Read a)).map (fun r => r.1.num_hits) = some (c.num_hits + 1)) ∧
      ((c.handle_pr_req (.Write a)).map (fun r => r.2) =
          some [(0, .CacheToProc c.proc_id .RequestResolved)] ∧
        (c.handle_pr_req (.Write a)).map (fun r => r.1.num_hits) = some (c.num_hits + 1) ∧
        (c.handle_pr_req (.Write a)).map (fun r => r.1.state_of a) =
          some (some .MESI_Modified))) := by
  refine ⟨?_, ?_, ?_, ?_⟩
  · intro hs
    obtain ⟨i, t, set, hpos, hset⟩ := state_of_invalid_elim c a _ hs
    refine ⟨by simp [Cache.handle_pr_req, hs], ?_, ?_⟩
    · intro hf
      simp [Cache.handle_pr_req, hs, hf]
    · intro hf
      have hnf : set.blocks.length ≠ c.specs.cache_assoc.toNat := by
        have h2 := hf
        simp [Cache.access_causes_flush, hpos, hset, hs] at h2
        exact h2
      obtain ⟨huc, hso⟩ := access_uncached_nf_spec c a .MESI_Modified i t set hpos hset hnf
      refine ⟨?_, ?_, ?_⟩
      · simp [Cache.handle_pr_req, hs, hf, huc]
      · simp [Cache.handle_pr_req, hs, hf, huc]
        exact hso
      · simp [Cache.handle_pr_req, hs, hf, huc]
  · intro hs
    obtain ⟨i, t, set, u, b, hpos, hset, hlk, hb⟩ :=
      state_of_resident c a _ hs (by simp) (by simp)
    obtain ⟨l2, htb, hac, hlk2, hmem, hso⟩ := access_cached_spec c a i t set u b hpos hset hlk
    obtain ⟨l3, hsb, hss, hlk3, hmem3, hso3⟩ :=
      set_state_of_spec c a i t set u b .MESI_Modified hpos hset hlk
    refine ⟨⟨?_, ?_, ?_, ?_⟩, ?_, ?_, ?_⟩
    · simp [Cache.handle_pr_req, hs, hac]
    · simp [Cache.handle_pr_req, hs, hac, Cache.putSet]
    · simp [Cache.handle_pr_req, hs, hac]
      exact hb ▸ hso
    · simp [Cache.handle_pr_req, hs, hac]
    · obtain ⟨l4, htb4, hac4, hlk4, hmem4, hso4⟩ :=
        access_cached_spec (c.putSet i { set with blocks := l3 }) a i t
          { set with blocks := l3 } u { b with state := .MESI_Modified } hpos
          (setAt_putSet_self c i set _ hset) hlk3
      simp [Cache.handle_pr_req, hs, hss, hac4]
    · obtain ⟨l4, htb4, hac4, hlk4, hmem4, hso4⟩ :=
        access_cached_spec (c.putSet i { set with blocks := l3 }) a i t
          { set with blocks := l3 } u { b with state := .MESI_Modified } hpos
          (setAt_putSet_self c i set _ hset) hlk3
      simp [Cache.handle_pr_req, hs, hss, hac4]
      exact hso4
    · obtain ⟨l4, htb4, hac4, hlk4, hmem4, hso4⟩ :=
        access_cached_spec (c.putSet i { set with blocks := l3 }) a i t
          { set with blocks := l3 } u { b with state := .MESI_Modified } hpos
          (setAt_putSet_self c i set _ hset) hlk3
      simp [Cache.handle_pr_req, hs, hss, hac4]
  · intro hs
    obtain ⟨i, t, set, u, b, hpos, hset, hlk, hb⟩ :=
      state_of_resident c a _ hs (by simp) (by simp)
    obtain ⟨l2, htb, hac, hlk2, hmem, hso⟩ := access_cached_spec c a i t set u b hpos hset hlk
    obtain ⟨l3, hsb, hss, hlk3, hmem3, hso3⟩ :=
      set_state_of_spec c a i t set u b .MESI_Modified hpos hset hlk
    refine ⟨⟨?_, ?_, ?_⟩, ?_, ?_, ?_⟩
    · simp [Cache.handle_pr_req, hs, hac]
    · simp [Cache.handle_pr_req, hs, hac, Cache.putSet]
    · simp [Cache.handle_pr_req, hs, hac]
      exact hb ▸ hso
    · obtain ⟨l4, htb4, hac4, hlk4, hmem4, hso4⟩ :=
        access_cached_spec (c.putSet i { set with blocks := l3 }) a i t
          { set with blocks := l3 } u { b with state := .MESI_Modified } hpos
          (setAt_putSet_self c i set _ hset) hlk3
      simp [Cache.handle_pr_req, hs, hss, hac4]
    · obtain ⟨l4, htb4, hac4, hlk4, hmem4, hso4⟩ :=
        access_cached_spec (c.putSet i { set with blocks := l3 }) a i t
          { set with blocks := l3 } u { b with state := .MESI_Modified } hpos
          (setAt_putSet_self c i set _ hset) hlk3
      simp [Cache.handle_pr_req, hs, hss, hac4]
      exact hso4
    · obtain ⟨l4, htb4, hac4, hlk4, hmem4, hso4⟩ :=
        access_cached_spec (c.putSet i { set with blocks := l3 }) a i t
          { set with blocks := l3 } u { b with state := .MESI_Modified } hpos
          (setAt_putSet_self c i set _ hset) hlk3
      simp [Cache.handle_pr_req, hs, hss, hac4]
  · intro hs
    obtain ⟨i, t, set, u, b, hpos, hset, hlk, hb⟩ :=
      state_of_resident c a _ hs (by simp) (by simp)
    obtain ⟨l2, htb, hac, hlk2, hmem, hso⟩ := access_cached_spec c a i t set u b hpos hset hlk
    refine ⟨⟨?_, ?_⟩, ?_, ?_, ?_⟩
    · simp [Cache.handle_pr_req, hs, hac]
    · simp [Cache.handle_pr_req, hs, hac, Cache.putSet]
    · simp [Cache.handle_pr_req, hs, hac]
    · simp [Cache.handle_pr_req, hs, hac, Cache.putSet]
    · simp [Cache.handle_pr_req, hs, hac]
      exact hb ▸ hso

/-- Witness for C1 at a concrete cache: `cacheShared` holds address 0 in
`Shared`, and a `Write` upgrades it to `Modified`. -/
theorem mesi_handle_pr_req_table_witness :
    cacheShared.specs.protocol = .MESI ∧ cacheShared.state = .Idle ∧
    (cacheShared.handle_pr_req (.Write ⟨0⟩)).map (fun r => r.1.state_of ⟨0⟩) =
      some (some .MESI_Modified) :=
  ⟨by decide, by decide,
    (((mesi_handle_pr_req_table cacheShared ⟨0⟩ (by decide) (by decide)).2.1)
      (by decide)).2.2.1⟩

/-- C2: For a MESI cache holding the bus on an `Invalid` block,
`Cache::handle_pr_req_bus_locked` resolves exactly as specified: a `Read` with a
peer holding the block issues `BusRd(a)`, installs `Shared`, and schedules
completion after `t_cache_to_cache_transfer` cycles (a self-message with delay
`t_cache_to_cache_transfer - 1`, the last cycle being the delivery cycle); a
`Read` with no peer issues `BusRdX(a)`, installs `Exclusive`, with latency
`t_mem_fetch`; a `Write`, which reaches this path only when an eviction was
required and never consults peers, issues `BusRdX(a)`, installs `Modified`,
with latency `t_flush`.  Each path also charges `block_size` bytes of bus
traffic and leaves the controller in `ResolvingPrReq`. -/
theorem mesi_bus_locked_resolution (c : Cache) (a : Addr)
    (hM : c.specs.protocol = .MESI) (hs : c.state_of a = some .MESI_Invalid)
    (hassoc : c.specs.cache_assoc.toNat ≠ 0) :
    ((c.handle_pr_req_bus_locked (.Read a) (some true)).map (fun r => r.2) =
        some [(0, .CacheToBus c.id (.BusSig c.id (.BusRd a))),
              (c.specs.t_cache_to_cache_transfer - 1, .CacheToCache c.id .PrReqResolved)] ∧
      (c.handle_pr_req_bus_locked (.Read a) (some true)).map (fun r => r.1.state_of a) =
        some (some .MESI_Shared) ∧
      (c.handle_pr_req_bus_locked (.Read a) (some true)).map
          (fun r => r.1.amt_issued_bus_traffic) =
        some (c.amt_issued_bus_traffic + c.specs.block_size) ∧
      (c.handle_pr_req_bus_locked (.Read a) (some true)).map (fun r => r.1.state) =
        some (.ResolvingPrReq (.Read a) none)) ∧
    ((c.handle_pr_req_bus_locked (.Read a) (some false)).map (fun r => r.2) =
        some [(0, .CacheToBus c.id (.BusSig c.id (.BusRdX a))),
              (c.specs.t_mem_fetch - 1, .CacheToCache c.id .PrReqResolved)] ∧
      (c.handle_pr_req_bus_locked (.Read a) (some false)).map (fun r => r.1.state_of a) =
        some (some .MESI_Exclusive) ∧
      (c.handle_pr_req_bus_locked (.Read a) (some false)).map
          (fun r => r.1.amt_issued_bus_traffic) =
        some (c.amt_issued_bus_traffic + c.specs.block_size) ∧
      (c.handle_pr_req_bus_locked (.Read a) (some false)).map (fun r => r.1.state) =
        some (.ResolvingPrReq (.Read a) none)) ∧
    (∀ ohb : Option Bool,
      (c.handle_pr_req_bus_locked (.Write a) ohb).map (fun r => r.2) =
        some [(0, .CacheToBus c.id (.BusSig c.id (.BusRdX a))),
              (c.specs.t_flush - 1, .CacheToCache c.id .PrReqResolved)] ∧
      (c.handle_pr_req_bus_locked (.Write a) ohb).map (fun r => r.1.state_of a) =
        some (some .MESI_Modified) ∧
      (c.handle_pr_req_bus_locked (.Write a) ohb).map
          (fun r => r.1.amt_issued_bus_traffic) =
        some (c.amt_issued_bus_traffic + c.specs.block_size) ∧
      (c.handle_pr_req_bus_locked (.Write a) ohb).map (fun r => r.1.state) =
        some (.ResolvingPrReq (.Write a) none)) := by
  obtain ⟨i, t, set, hpos, hset⟩ := state_of_invalid_elim c a _ hs
  have resolve : ∀ st : BlockState,
      ∃ c2, c.access_uncached a st = some c2 ∧ c2.state_of a = some st ∧
        c2.amt_issued_bus_traffic = c.amt_issued_bus_traffic := by
    intro st
    by_cases hful : set.blocks.length = c.specs.cache_assoc.toNat
    · have hne : set.blocks ≠ [] := by
        intro hnil
        rw [hnil] at hful
        exact hassoc hful.symm
      obtain ⟨lru, _, huc, hso⟩ :=
        access_uncached_full_spec c a st i t set hpos hset hful hne
      exact ⟨_, huc, hso, rfl⟩
    · obtain ⟨huc, hso⟩ := access_uncached_nf_spec c a st i t set hpos hset hful
      exact ⟨_, huc, hso, rfl⟩
  obtain ⟨cS, hucS, hsoS, htrS⟩ := resolve .MESI_Shared
  obtain ⟨cE, hucE, hsoE, htrE⟩ := resolve .MESI_Exclusive
  obtain ⟨cM, hucM, hsoM, htrM⟩ := resolve .MESI_Modified
  refine ⟨⟨?_, ?_, ?_, ?_⟩, ⟨?_, ?_, ?_, ?_⟩, ?_⟩
  · simp [Cache.handle_pr_req_bus_locked, hs, hM, hucS]
  · simp [Cache.handle_pr_req_bus_locked, hs, hM, hucS]
    exact hsoS
  · simp [Cache.handle_pr_req_bus_locked, hs, hM, hucS, htrS]
  · simp [Cache.handle_pr_req_bus_locked, hs, hM, hucS]
  · simp [Cache.handle_pr_req_bus_locked, hs, hM, hucE]
  · simp [Cache.handle_pr_req_bus_locked, hs, hM, hucE]
    exact hsoE
  · simp [Cache.handle_pr_req_bus_locked, hs, hM, hucE, htrE]
  · simp [Cache.handle_pr_req_bus_locked, hs, hM, hucE]
  · intro ohb
    refine ⟨?_, ?_, ?_, ?_⟩
    · simp [Cache.handle_pr_req_bus_locked, hs, hM, hucM]
    · simp [Cache.handle_pr_req_bus_locked, hs, hM, hucM]
      exact hsoM
    · simp [Cache.handle_pr_req_bus_locked, hs, hM, hucM, htrM]
    · simp [Cache.handle_pr_req_bus_locked, hs, hM, hucM]

/-- Witness for C2 at a concrete cache: a cold read with a peer present
installs address 0 as `Shared`. -/
theorem mesi_bus_locked_resolution_witness :
    cacheEmptySet.specs.protocol = .MESI ∧
    cacheEmptySet.state_of ⟨0⟩ = some .MESI_Invalid ∧
    (cacheEmptySet.handle_pr_req_bus_locked (.Read ⟨0⟩) (some true)).map
      (fun r => r.1.state_of ⟨0⟩) = some (some .MESI_Shared) :=
  ⟨by decide, by decide,
    ((mesi_bus_locked_resolution cacheEmptySet ⟨0⟩ (by decide) (by decide)
      (by decide)).1).2.1⟩

/-- C3: For an `Idle` MESI cache snooping a bus signal for address `a`
(`Cache::handle_bus_sig`): on `Invalid` every signal is ignored; on `Shared`,
`BusRdX` invalidates the block and the other signals are ignored; on
`Exclusive`, `BusRd` moves the block to `Shared` while `BusRdX` acquires the
bus, and once locked (`Cache::handle_bus_sig_bus_locked`) the block goes
`Invalid` with completion after `t_flush` cycles (self-message with delay
`t_flush - 1`); on `Modified`, both `BusRd` and `BusRdX` acquire the bus to
flush, after which `BusRd` leaves the block `Shared` and `BusRdX` leaves it
`Invalid`, each with latency `t_flush`. -/
theorem mesi_snoop_table (c : Cache) (a : Addr)
    (hM : c.specs.protocol = .MESI) (hIdle : c.state = .Idle) :
    (c.state_of a = some .MESI_Invalid →
      c.handle_bus_sig (.BusRd a) = some (c, []) ∧
      c.handle_bus_sig (.BusRdX a) = some (c, []) ∧
      c.handle_bus_sig (.BusUpd a) = some (c, [])) ∧
    (c.state_of a = some .MESI_Shared →
      ((c.handle_bus_sig (.BusRdX a)).map (fun r => r.1.state_of a) =
          some (some .MESI_Invalid) ∧
        (c.handle_bus_sig (.BusRdX a)).map (fun r => r.2) = some [] ∧
        (c.handle_bus_sig (.BusRdX a)).map (fun r => r.1.state) = some c.state) ∧
      c.handle_bus_sig (.BusRd a) = some (c, []) ∧
      c.handle_bus_sig (.BusUpd a) = some (c, [])) ∧
    (c.state_of a = some .MESI_Exclusive →
      ((c.handle_bus_sig (.BusRd a)).map (fun r => r.1.state_of a) =
          some (some .MESI_Shared) ∧
        (c.handle_bus_sig (.BusRd a)).map (fun r => r.2) = some []) ∧
      (c.handle_bus_sig (.BusRdX a) =
        some ({ c with state := .WaitingForBus_BusSig (.BusRdX a) },
              [(0, .CacheToBus c.id (.Acquire c.id))])) ∧
      ((c.handle_bus_sig_bus_locked (.BusRdX a)).map (fun r => r.1.state_of a) =
          some (some .MESI_Invalid) ∧
        (c.handle_bus_sig_bus_locked (.BusRdX a)).map (fun r => r.2) =
          some [(c.specs.t_flush - 1, .CacheToCache c.id .BusReqResolved)])) ∧
    (c.state_of a = some .MESI_Modified →
      (c.handle_bus_sig (.BusRd a) =
        some ({ c with state := .WaitingForBus_BusSig (.BusRd a) },
              [(0, .CacheToBus c.id (.Acquire c.id))])) ∧
      (c.handle_bus_sig (.BusRdX a) =
        some ({ c with state := .WaitingForBus_BusSig (.BusRdX a) },
              [(0, .CacheToBus c.id (.Acquire c.id))])) ∧
      ((c.handle_bus_sig_bus_locked (.BusRd a)).map (fun r => r.1.state_of a) =
          some (some .MESI_Shared) ∧
        (c.handle_bus_sig_bus_locked (.BusRd a)).map (fun r => r.2) =
          some [(c.specs.t_flush - 1, .CacheToCache c.id .BusReqResolved)]) ∧
      ((c.handle_bus_sig_bus_locked (.BusRdX a)).map (fun r => r.1.state_of a) =
          some (some .MESI_Invalid) ∧
        (c.handle_bus_sig_bus_locked (.BusRdX a)).map (fun r => r.2) =
          some [(c.specs.t_flush - 1, .CacheToCache c.id .BusReqResolved)])) := by
  refine ⟨?_, ?_, ?_, ?_⟩
  · intro hs
    exact ⟨by simp [Cache.handle_bus_sig, hs], by simp [Cache.handle_bus_sig, hs],
      by simp [Cache.handle_bus_sig, hs]⟩
  · intro hs
    obtain ⟨i, t, set, u, b, hpos, hset, hlk, hb⟩ :=
      state_of_resident c a _ hs (by simp) (by simp)
    obtain ⟨l2, hsb, hss, hlk2, hmem, hso⟩ :=
      set_state_of_spec c a i t set u b .MESI_Invalid hpos hset hlk
    refine ⟨⟨?_, ?_, ?_⟩, ?_, ?_⟩
    · simp [Cache.handle_bus_sig, hs, hss]
      exact hso
    · simp [Cache.handle_bus_sig, hs, hss]
    · simp [Cache.handle_bus_sig, hs, hss, Cache.putSet]
    · simp [Cache.handle_bus_sig, hs]
    · simp [Cache.handle_bus_sig, hs]
  · intro hs
    obtain ⟨i, t, set, u, b, hpos, hset, hlk, hb⟩ :=
      state_of_resident c a _ hs (by simp) (by simp)
    obtain ⟨l2, hsb, hss, hlk2, hmem, hso⟩ :=
      set_state_of_spec c a i t set u b .MESI_Shared hpos hset hlk
    obtain ⟨l3, hsb3, hss3, hlk3, hmem3, hso3⟩ :=
      set_state_of_spec c a i t set u b .MESI_Invalid hpos hset hlk
    refine ⟨⟨?_, ?_⟩, ?_, ?_, ?_⟩
    · simp [Cache.handle_bus_sig, hs, hss]
      exact hso
    · simp [Cache.handle_bus_sig, hs, hss]
    · simp [Cache.handle_bus_sig, hs]
    · simp [Cache.handle_bus_sig_bus_locked, hs, hss3]
      exact hso3
    · simp [Cache.handle_bus_sig_bus_locked, hs, hss3]
  · intro hs
    obtain ⟨i, t, set, u, b, hpos, hset, hlk, hb⟩ :=
      state_of_resident c a _ hs (by simp) (by simp)
    obtain ⟨l2, hsb, hss, hlk2, hmem, hso⟩ :=
      set_state_of_spec c a i t set u b .MESI_Shared hpos hset hlk
    obtain ⟨l3, hsb3, hss3, hlk3, hmem3, hso3⟩ :=
      set_state_of_spec c a i t set u b .MESI_Invalid hpos hset hlk
    refine ⟨?_, ?_, ⟨?_, ?_⟩, ?_, ?_⟩
    · simp [Cache.handle_bus_sig, hs]
    · simp [Cache.handle_bus_sig, hs]
    · simp [Cache.handle_bus_sig_bus_locked, hs, hss]
      exact hso
    · simp [Cache.handle_bus_sig_bus_locked, hs, hss]
    · simp [Cache.handle_bus_sig_bus_locked, hs, hss3]
      exact hso3
    · simp [Cache.handle_bus_sig_bus_locked, hs, hss3]

/-- Witness for C3 at a concrete cache: `cacheExclusive` snooping `BusRd` on
address 0 moves the block to `Shared`. -/
theorem mesi_snoop_table_witness :
    cacheExclusive.specs.protocol = .MESI ∧ cacheExclusive.state = .Idle ∧
    (cacheExclusive.handle_bus_sig (.BusRd ⟨0⟩)).map (fun r => r.1.state_of ⟨0⟩) =
      some (some .MESI_Shared) :=
  ⟨by decide, by decide,
    (((mesi_snoop_table cacheExclusive ⟨0⟩ (by decide) (by decide)).2.2.1)
      (by decide)).1.1⟩

/-- Counterexample to C4 as stated: from `Unlocked_Idle` with a broadcast still
pending in the signal queue, an arriving `Acquire` is granted the lock
immediately — `Bus::handle_msg` does not check the signal queue on the
`Acquire` arm — so a lock is granted from an unlocked state while the signal
queue is non-empty. -/
theorem bus_acquire_ignores_pending_signals :
    busPendingSig.state = .Unlocked_Idle ∧
    (busPendingSig.handle_msg (.Acquire 1)).map (fun r => r.1.state) =
      some (.Locked 1) ∧
    (busPendingSig.handle_msg (.Acquire 1)).map (fun r => r.2) =
      some [(0, .BusToCache 1 .BusLocked)] ∧
    busPendingSig.signal_queue ≠ [] := by decide

/-- C4 amended: on a `Tick` from `Unlocked_Idle` the bus grants a queued lock
request only when the signal queue is empty (pending signals drain first),
but an `Acquire` message arriving while the bus is `Unlocked_Idle` is granted
immediately without consulting the signal queue. -/
theorem bus_unlocked_priority (b : Bus) (hu : b.state = .Unlocked_Idle) :
    (∀ b2 msgs, b.handle_msg .Tick = some (b2, msgs) →
      (∃ id, b2.state = .Locked id) → b.signal_queue = []) ∧
    (∀ id, b.handle_msg (.Acquire id) =
      some ({ b with state := .Locked id }, [(0, .BusToCache id .BusLocked)])) := by
  obtain ⟨st, n, specs, cache_ids, sq, lq⟩ := b
  have hu2 : st = .Unlocked_Idle := hu
  subst hu2
  constructor
  · intro b2 msgs hmsg hlocked
    obtain ⟨id, hid⟩ := hlocked
    cases hq : sq with
    | nil => rfl
    | cons x rest =>
      exfalso
      obtain ⟨sig, cid⟩ := x
      rw [hq] at hmsg
      simp only [Bus.handle_msg, Bus.tick_unlocked_idle, Option.some_inj,
        Prod.mk.injEq] at hmsg
      rw [← hmsg.1] at hid
      cases hid
  · intro id
    simp [Bus.handle_msg]

/-- Witness for the amended C4 at a concrete bus. -/
theorem bus_unlocked_priority_witness :
    busPendingSig.state = .Unlocked_Idle ∧
    busPendingSig.handle_msg (.Acquire 7) =
      some ({ busPendingSig with state := .Locked 7 },
            [(0, .BusToCache 7 .BusLocked)]) :=
  ⟨by decide, (bus_unlocked_priority busPendingSig (by decide)).2 7⟩

/-! ### Delayed-queue lemmas -/

theorem mem_insertByKey {M : Type} (l : List (Int × M)) (t : Int) (m : M) :
    ∀ e ∈ insertByKey l t m, e = (t, m) ∨ e ∈ l := by
  induction l with
  | nil => intro e he; simp [insertByKey] at he; simp [he]
  | cons x xs ih =>
    intro e he
    by_cases h : x.1 > t
    · simp [insertByKey, h] at he
      rcases he with he | he | he
      · exact Or.inl (by simp [he])
      · exact Or.inr (by simp [he])
      · exact Or.inr (List.mem_cons_of_mem x he)
    · simp [insertByKey, h] at he
      rcases he with he | he
      · exact Or.inr (by simp [he])
      · rcases ih e he with h2 | h2
        · exact Or.inl h2
        · exact Or.inr (List.mem_cons_of_mem x h2)

theorem insertByKey_take_drop {M : Type} (l : List (Int × M)) (t : Int) (m : M) :
    insertByKey l t m =
      l.takeWhile (fun e => decide (e.1 ≤ t)) ++
        (t, m) :: l.dropWhile (fun e => decide (e.1 ≤ t)) := by
  induction l with
  | nil => simp [insertByKey]
  | cons x xs ih =>
    by_cases h : x.1 > t
    · have hd : decide (x.1 ≤ t) = false := by simp [not_le.mpr h]
      simp [insertByKey, h, List.takeWhile_cons, List.dropWhile_cons, hd]
    · have hd : decide (x.1 ≤ t) = true := by simp [not_lt.mp h]
      simp [insertByKey, h, List.takeWhile_cons, List.dropWhile_cons, hd, ih]

theorem insertByKey_sorted {M : Type} (l : List (Int × M)) (t : Int) (m : M)
    (h : TimeSorted l) : TimeSorted (insertByKey l t m) := by
  induction l with
  | nil => simp [insertByKey, TimeSorted]
  | cons x xs ih =>
    rw [TimeSorted, List.pairwise_cons] at h
    obtain ⟨hx, hxs⟩ := h
    by_cases hgt : x.1 > t
    · rw [TimeSorted]
      simp only [insertByKey, if_pos hgt]
      rw [List.pairwise_cons]
      constructor
      · intro y hy
        rcases List.mem_cons.mp hy with hy | hy
        · rw [hy]; exact le_of_lt hgt
        · exact le_trans (le_of_lt hgt) (hx y hy)
      · rw [List.pairwise_cons]
        exact ⟨hx, hxs⟩
    · rw [TimeSorted]
      simp only [insertByKey, if_neg hgt]
      rw [List.pairwise_cons]
      constructor
      · intro y hy
        rcases mem_insertByKey xs t m y hy with hy | hy
        · rw [hy]; exact not_lt.mp hgt
        · exact hx y hy
      · exact ih hxs

theorem timeSorted_le_getLast {M : Type} (l : List (Int × M)) (x : Int × M)
    (h : TimeSorted l) (hl : l.getLast? = some x) : ∀ e ∈ l, e.1 ≤ x.1 := by
  induction l with
  | nil => intro e he; simp at he
  | cons y ys ih =>
    rw [TimeSorted, List.pairwise_cons] at h
    obtain ⟨hy, hys⟩ := h
    intro e he
    cases hys2 : ys with
    | nil =>
      rw [hys2] at hl
      simp at hl
      rw [hys2] at he
      simp at he
      simp [he, hl]
    | cons z zs =>
      rw [hys2] at hl
      rw [List.getLast?_cons_cons] at hl
      have hxmem : x ∈ z :: zs := by
        have := List.getLast?_eq_getLast (z :: zs) (by simp)
        rw [this] at hl
        rw [← Option.some_inj.mp hl]
        exact List.getLast_mem _
      rcases List.mem_cons.mp he with he | he
      · rw [he]
        exact hy x (hys2 ▸ hxmem)
      · exact ih (hys2 ▸ hys) (hys2 ▸ hl) e (hys2 ▸ he)

theorem insertByKey_all_le {M : Type} (l : List (Int × M)) (t : Int) (m : M)
    (hall : ∀ e ∈ l, e.1 ≤ t) : insertByKey l t m = l ++ [(t, m)] := by
  induction l with
  | nil => simp [insertByKey]
  | cons x xs ih =>
    have hx : ¬ x.1 > t := not_lt.mpr (hall x (List.mem_cons_self x xs))
    simp [insertByKey, hx]
    exact ih (fun e he => hall e (List.mem_cons_of_mem x he))

theorem delayedQ_send_eq {M : Type} (dq : DelayedQ M) (d : Int) (m : M)
    (hwf : DelayedQWF dq) :
    (dq.send d m).q = insertByKey dq.q (dq.time + d) m := by
  obtain ⟨hst, hkf, hkl⟩ := hwf
  rw [DelayedQ.send]
  simp only [DelayedQ.update_keys]
  by_cases h1 : dq.time + d ≥ dq.key_last.getD 0
  · rw [if_pos h1]
    cases hq : dq.q with
    | nil => simp [insertByKey]
    | cons x xs =>
      have hlast : ∃ z, dq.q.getLast? = some z := by
        rw [hq]; exact ⟨(x :: xs).getLast (by simp), List.getLast?_eq_getLast _ _⟩
      obtain ⟨z, hz⟩ := hlast
      have hall : ∀ e ∈ dq.q, e.1 ≤ dq.time + d := by
        intro e he
        have h3 := timeSorted_le_getLast dq.q z hst hz e he
        have h4 : dq.key_last.getD 0 = z.1 := by rw [hkl, hz]; rfl
        rw [h4] at h1
        exact le_trans h3 h1
      rw [← hq, insertByKey_all_le dq.q _ m hall]
  · rw [if_neg h1]
    by_cases h2 : dq.time + d < dq.key_first.getD 2147483647
    · rw [if_pos h2]
      cases hq : dq.q with
      | nil => simp [hq, insertByKey]
      | cons x xs =>
        have hx : x.1 > dq.time + d := by
          have : dq.key_first.getD 2147483647 = x.1 := by rw [hkf, hq]; rfl
          rw [this] at h2
          exact h2
        simp [insertByKey, hx]
    · rw [if_neg h2]

theorem delayedQ_send_WF {M : Type} (dq : DelayedQ M) (d : Int) (m : M)
    (hwf : DelayedQWF dq) : DelayedQWF (dq.send d m) := by
  have hq := delayedQ_send_eq dq d m hwf
  refine ⟨?_, ?_, ?_⟩
  · rw [hq]
    exact insertByKey_sorted dq.q _ m hwf.1
  · rw [DelayedQ.send]
    simp [DelayedQ.update_keys]
  · rw [DelayedQ.send]
    simp [DelayedQ.update_keys]

theorem delayedQ_fetch_some {M : Type} (dq : DelayedQ M) (m : M) (dq2 : DelayedQ M)
    (h : dq.try_fetch = (some m, dq2)) :
    ∃ rest, dq.q = (dq.time, m) :: rest ∧ dq2.q = rest := by
  cases hq : dq.q with
  | nil => simp [DelayedQ.try_fetch, hq] at h
  | cons x rest =>
    obtain ⟨t0, m0⟩ := x
    by_cases ht : t0 = dq.time
    · subst ht
      simp [DelayedQ.try_fetch, hq, DelayedQ.update_keys] at h
      obtain ⟨hm, hdq2⟩ := h
      subst hm
      exact ⟨rest, rfl, by rw [← hdq2]⟩
    · simp [DelayedQ.try_fetch, hq, ht] at h

theorem delayedQ_fetch_stale {M : Type} (dq : DelayedQ M) (t0 : Int) (m0 : M)
    (rest : List (Int × M)) (hq : dq.q = (t0, m0) :: rest) (ht : t0 ≠ dq.time) :
    dq.try_fetch = (none, dq) := by
  simp [DelayedQ.try_fetch, hq, ht]

/-- C5: The delayed event queue delivers a message only at the cycle equal to
its issue time plus its delay, in FIFO order among equal target cycles.  For a
well-formed queue: (i) `send` with delay `d` inserts the message with target
cycle `time + d`, after every entry with target `≤ time + d` (so behind all
earlier messages with the same target) and before every strictly later entry,
and preserves well-formedness; (ii) `try_fetch` returns a message only when it
is at the front with target exactly the current time, and otherwise (front
entry with a different target) returns `none` and leaves the queue unchanged.
Since delivery always pops the front, among equal target cycles the earlier
`send` is returned first. -/
theorem delayed_q_delivery (M : Type) (dq : DelayedQ M) (d : Int) (m : M)
    (hwf : DelayedQWF dq) :
    ((dq.send d m).q =
        dq.q.takeWhile (fun e => decide (e.1 ≤ dq.time + d)) ++
          (dq.time + d, m) :: dq.q.dropWhile (fun e => decide (e.1 ≤ dq.time + d)) ∧
      DelayedQWF (dq.send d m)) ∧
    (∀ m2 dq2, dq.try_fetch = (some m2, dq2) →
      ∃ rest, dq.q = (dq.time, m2) :: rest ∧ dq2.q = rest) ∧
    (∀ t0 m0 rest, dq.q = (t0, m0) :: rest → t0 ≠ dq.time →
      dq.try_fetch = (none, dq)) :=
  ⟨⟨(delayedQ_send_eq dq d m hwf).trans (insertByKey_take_drop dq.q _ m),
    delayedQ_send_WF dq d m hwf⟩,
   fun m2 dq2 h => delayedQ_fetch_some dq m2 dq2 h,
   fun t0 m0 rest hq ht => delayedQ_fetch_stale dq t0 m0 rest hq ht⟩

/-- Witness for C5 at a concrete queue: sending a message with delay 1 at time
0 into a queue holding targets 0 and 1 places it last, behind the equal-target
entry. -/
theorem delayed_q_delivery_witness :
    DelayedQWF dqFixture ∧
    (dqFixture.send 1 11).q =
      dqFixture.q.takeWhile (fun e => decide (e.1 ≤ dqFixture.time + 1)) ++
        (dqFixture.time + 1, 11) ::
          dqFixture.q.dropWhile (fun e => decide (e.1 ≤ dqFixture.time + 1)) :=
  ⟨by decide, (delayed_q_delivery Int dqFixture 1 11 (by decide)).1.1⟩

/-! ### LRU lemmas -/

theorem insertB_mem_or (l : List BlockEntry) (k : Int) (v : Int × CacheBlock) :
    ∀ e ∈ insertB l k v, e = (k, v) ∨ e ∈ l := by
  induction l with
  | nil => intro e he; simp [insertB] at he; simp [he]
  | cons x xs ih =>
    intro e he
    by_cases h : x.1 = k
    · simp [insertB, h] at he
      rcases he with he | he
      · exact Or.inl (by simp [he])
      · exact Or.inr (List.mem_cons_of_mem x he)
    · simp [insertB, h] at he
      rcases he with he | he
      · exact Or.inr (by simp [he])
      · rcases ih e he with h2 | h2
        · exact Or.inl h2
        · exact Or.inr (List.mem_cons_of_mem x h2)

theorem touchB_mem_or (l : List BlockEntry) (k v : Int) (l2 : List BlockEntry)
    (h : touchB l k v = some l2) : ∀ e ∈ l2, e.2.1 = v ∨ e ∈ l := by
  induction l generalizing l2 with
  | nil => simp [touchB] at h
  | cons x xs ih =>
    intro e he
    by_cases hx : x.1 = k
    · simp [touchB, hx] at h
      rw [← h] at he
      rcases List.mem_cons.mp he with he | he
      · exact Or.inl (by simp [he])
      · exact Or.inr (List.mem_cons_of_mem x he)
    · simp [touchB, hx] at h
      obtain ⟨l3, hl3, hl2⟩ := h
      rw [← hl2] at he
      rcases List.mem_cons.mp he with he | he
      · exact Or.inr (he ▸ List.mem_cons_self x xs)
      · rcases ih l3 hl3 e he with h2 | h2
        · exact Or.inl h2
        · exact Or.inr (List.mem_cons_of_mem x h2)

/-- C6: the replacement discipline of `Cache::access_uncached` and
`Cache::access_cached` is LRU with per-set counters.  Under the invariant that
every resident counter is at most the set's `mru_ctr`: a hit re-stamps the
touched block with the fresh counter `mru_ctr + 1`, strictly above every other
resident block; a miss into a full set evicts a block whose counter is minimal
and increments `invalidations`; a miss into a non-full set evicts nothing; in
all cases the per-set counter source increases to `mru_ctr + 1`, the installed
or touched block holds it, and the invariant is preserved. -/
theorem lru_discipline (c : Cache) (a : Addr) (i t : Int) (set : CacheSet)
    (hpos : a.pos c.specs = (i, t)) (hset : c.setAt i = some set)
    (hinv : ∀ e ∈ set.blocks, e.2.1 ≤ set.mru_ctr) :
    (∀ u b, lookupB set.blocks t = some (u, b) →
      ∃ c2 set2, c.access_cached a = some c2 ∧ c2.setAt i = some set2 ∧
        set2.mru_ctr = set.mru_ctr + 1 ∧
        lookupB set2.blocks t = some (set.mru_ctr + 1, b) ∧
        (∀ e ∈ set2.blocks, e.1 ≠ t → e.2.1 < set.mru_ctr + 1) ∧
        (∀ e ∈ set2.blocks, e.2.1 ≤ set2.mru_ctr) ∧
        c2.num_hits = c.num_hits + 1 ∧
        c2.num_invalidations = c.num_invalidations) ∧
    (∀ st : BlockState, set.blocks.length = c.specs.cache_assoc.toNat →
      set.blocks ≠ [] →
      ∃ lru c2 set2, minB set.blocks = some lru ∧ lru ∈ set.blocks ∧
        (∀ e ∈ set.blocks, lru.2.1 ≤ e.2.1) ∧
        c.access_uncached a st = some c2 ∧ c2.setAt i = some set2 ∧
        set2.mru_ctr = set.mru_ctr + 1 ∧
        set2.blocks =
          insertB (removeB set.blocks lru.1) t
            (set.mru_ctr + 1, { tag := t, state := st }) ∧
        lookupB set2.blocks t = some (set.mru_ctr + 1, { tag := t, state := st }) ∧
        (∀ e ∈ set2.blocks, e.1 ≠ t → e.2.1 < set.mru_ctr + 1) ∧
        (∀ e ∈ set2.blocks, e.2.1 ≤ set2.mru_ctr) ∧
        c2.num_invalidations = c.num_invalidations + 1 ∧
        c2.num_misses = c.num_misses + 1) ∧
    (∀ st : BlockState, set.blocks.length ≠ c.specs.cache_assoc.toNat →
      ∃ c2 set2, c.access_uncached a st = some c2 ∧ c2.setAt i = some set2 ∧
        set2.mru_ctr = set.mru_ctr + 1 ∧
        lookupB set2.blocks t = some (set.mru_ctr + 1, { tag := t, state := st }) ∧
        (∀ e ∈ set2.blocks, e.1 ≠ t → e.2.1 < set.mru_ctr + 1) ∧
        (∀ e ∈ set2.blocks, e.2.1 ≤ set2.mru_ctr) ∧
        c2.num_invalidations = c.num_invalidations ∧
        c2.num_misses = c.num_misses + 1) := by
  refine ⟨?_, ?_, ?_⟩
  · intro u b hlk
    obtain ⟨l2, htb, hac, hlk2, hmem, hso⟩ := access_cached_spec c a i t set u b hpos hset hlk
    refine ⟨_, _, hac,
      setAt_putSet_self ({ c with num_hits := c.num_hits + 1 }) i set _ hset,
      rfl, hlk2, ?_, ?_, rfl, rfl⟩
    · intro e he hne
      exact lt_of_le_of_lt (hinv e (hmem e he hne)) (by omega)
    · intro e he
      rcases touchB_mem_or set.blocks t (set.mru_ctr + 1) l2 htb e he with h2 | h2
      · exact le_of_eq h2
      · exact le_trans (hinv e h2)
          (by show set.mru_ctr ≤ set.mru_ctr + 1; omega)
  · intro st hful hne
    obtain ⟨lru, hlru, huc, hso⟩ :=
      access_uncached_full_spec c a st i t set hpos hset hful hne
    have hset3 : ({ c with num_misses := c.num_misses + 1, num_invalidations := c.num_invalidations + 1 } : Cache).setAt i = some set := hset
    refine ⟨lru, _, _, hlru, minB_mem set.blocks lru hlru, minB_min set.blocks lru hlru,
      huc, setAt_putSet_self _ i set _ hset3, rfl, rfl,
      lookupB_insertB_self _ t _, ?_, ?_, rfl, rfl⟩
    · intro e he hne
      rcases insertB_mem_or _ t _ e he with h2 | h2
      · exact absurd (congrArg Prod.fst h2) hne
      · exact lt_of_le_of_lt (hinv e (mem_removeB set.blocks lru.1 e h2)) (by omega)
    · intro e he
      rcases insertB_mem_or _ t _ e he with h2 | h2
      · exact le_of_eq (congrArg (fun x => x.2.1) h2)
      · exact le_trans (hinv e (mem_removeB set.blocks lru.1 e h2))
          (by show set.mru_ctr ≤ set.mru_ctr + 1; omega)
  · intro st hnful
    obtain ⟨huc, hso⟩ := access_uncached_nf_spec c a st i t set hpos hset hnful
    refine ⟨_, _, huc,
      setAt_putSet_self ({ c with num_misses := c.num_misses + 1 }) i set _ hset,
      rfl, lookupB_insertB_self _ t _, ?_, ?_, rfl, rfl⟩
    · intro e he hne
      rcases insertB_mem_or _ t _ e he with h2 | h2
      · exact absurd (congrArg Prod.fst h2) hne
      · exact lt_of_le_of_lt (hinv e h2) (by omega)
    · intro e he
      rcases insertB_mem_or _ t _ e he with h2 | h2
      · exact le_of_eq (congrArg (fun x => x.2.1) h2)
      · exact le_trans (hinv e h2)
          (by show set.mru_ctr ≤ set.mru_ctr + 1; omega)

/-- Witness for C6 at a concrete full set: accessing a fresh tag in
`cacheFullSet` evicts the block with the minimal counter (tag 1, counter 3). -/
theorem lru_discipline_witness :
    (∀ e ∈ ({ blocks := [(1, (3, { tag := 1, state := .MESI_Modified })),
                         (2, (5, { tag := 2, state := .MESI_Modified }))],
              mru_ctr := 5 } : CacheSet).blocks, e.2.1 ≤ (5 : Int)) ∧
    (∃ lru c2 set2,
      minB [(1, (3, { tag := 1, state := .MESI_Modified })),
            (2, (5, { tag := 2, state := .MESI_Modified }))] = some lru ∧
      lru ∈ [((1 : Int), ((3 : Int), ({ tag := 1, state := .MESI_Modified } : CacheBlock))),
             (2, (5, { tag := 2, state := .MESI_Modified }))] ∧
      (∀ e ∈ [((1 : Int), ((3 : Int), ({ tag := 1, state := .MESI_Modified } : CacheBlock))),
              (2, (5, { tag := 2, state := .MESI_Modified }))], lru.2.1 ≤ e.2.1) ∧
      cacheFullSet.access_uncached ⟨0⟩ .MESI_Exclusive = some c2 ∧
      c2.setAt 0 = some set2 ∧
      set2.mru_ctr = 5 + 1 ∧
      set2.blocks =
        insertB (removeB [(1, (3, { tag := 1, state := .MESI_Modified })),
                          (2, (5, { tag := 2, state := .MESI_Modified }))] lru.1) 0
          (5 + 1, { tag := 0, state := .MESI_Exclusive }) ∧
      lookupB set2.blocks 0 = some (5 + 1, { tag := 0, state := .MESI_Exclusive }) ∧
      (∀ e ∈ set2.blocks, e.1 ≠ 0 → e.2.1 < 5 + 1) ∧
      (∀ e ∈ set2.blocks, e.2.1 ≤ set2.mru_ctr) ∧
      c2.num_invalidations = cacheFullSet.num_invalidations + 1 ∧
      c2.num_misses = cacheFullSet.num_misses + 1) :=
  ⟨by decide,
    (lru_discipline cacheFullSet ⟨0⟩ 0 0
      { blocks := [(1, (3, { tag := 1, state := .MESI_Modified })),
                   (2, (5, { tag := 2, state := .MESI_Modified }))], mru_ctr := 5 }
      (by decide) (by decide) (by decide)).2.1 .MESI_Exclusive (by decide) (by decide)⟩

/-! ### Processor conservation lemmas -/

theorem procCycle_done (p : Processor) (r : Bool) (hd : p.state = .Done) :
    procCycle p r = some p := by
  cases r <;> simp [procCycle, hd, Processor.handle_msg]

theorem procCycle_step (p : Processor) (r : Bool) (p2 : Processor)
    (hnd : p.state ≠ .Done) (h : procCycle p r = some p2) :
    procPot p2 = procPot p + 1 ∧ (p2.state = .Done → p2.instructions = []) := by
  cases hst : p.state with
  | Done => exact absurd hst hnd
  | Idle =>
    cases hinst : p.instructions with
    | nil => simp [procCycle, hst, Processor.handle_msg, hinst] at h
    | cons instr rest =>
      cases instr with
      | Read addr =>
        cases r with
        | false =>
          simp [procCycle, hst, Processor.handle_msg, hinst] at h
          refine ⟨?_, ?_⟩
          · rw [← h]
            simp [procPot, procSlack, hst, hinst, sumOther]
            try omega
          · intro hdone
            rw [← h] at hdone
            simp at hdone
        | true =>
          by_cases hrl : rest = []
          · subst hrl
            simp [procCycle, hst, Processor.handle_msg, hinst,
              Processor.proceed] at h
            refine ⟨?_, ?_⟩
            · rw [← h]
              simp [procPot, procSlack, hst, hinst, sumOther]
              try omega
            · intro hdone
              rw [← h]
          · simp [procCycle, hst, Processor.handle_msg, hinst,
              Processor.proceed, hrl] at h
            refine ⟨?_, ?_⟩
            · rw [← h]
              simp [procPot, procSlack, hst, hinst, sumOther]
              try omega
            · intro hdone
              rw [← h] at hdone
              simp at hdone
      | Write addr =>
        cases r with
        | false =>
          simp [procCycle, hst, Processor.handle_msg, hinst] at h
          refine ⟨?_, ?_⟩
          · rw [← h]
            simp [procPot, procSlack, hst, hinst, sumOther]
            try omega
          · intro hdone
            rw [← h] at hdone
            simp at hdone
        | true =>
          by_cases hrl : rest = []
          · subst hrl
            simp [procCycle, hst, Processor.handle_msg, hinst,
              Processor.proceed] at h
            refine ⟨?_, ?_⟩
            · rw [← h]
              simp [procPot, procSlack, hst, hinst, sumOther]
              try omega
            · intro hdone
              rw [← h]
          · simp [procCycle, hst, Processor.handle_msg, hinst,
              Processor.proceed, hrl] at h
            refine ⟨?_, ?_⟩
            · rw [← h]
              simp [procPot, procSlack, hst, hinst, sumOther]
              try omega
            · intro hdone
              rw [← h] at hdone
              simp at hdone
      | Other n =>
        cases r with
        | true => simp [procCycle, hst, Processor.handle_msg, hinst] at h
        | false =>
          by_cases hn : n - 1 = 0
          · by_cases hrl : rest = []
            · subst hrl
              simp [procCycle, hst, Processor.handle_msg, hinst, hn,
                Processor.proceed] at h
              refine ⟨?_, ?_⟩
              · rw [← h]
                simp [procPot, procSlack, hst, hinst, sumOther]
                try omega
              · intro hdone
                rw [← h]
            · simp [procCycle, hst, Processor.handle_msg, hinst, hn,
                Processor.proceed, hrl] at h
              refine ⟨?_, ?_⟩
              · rw [← h]
                simp [procPot, procSlack, hst, hinst, sumOther]
                try omega
              · intro hdone
                rw [← h] at hdone
                simp at hdone
          · simp [procCycle, hst, Processor.handle_msg, hinst, hn] at h
            refine ⟨?_, ?_⟩
            · rw [← h]
              simp [procPot, procSlack, hst, hinst, sumOther]
              try omega
            · intro hdone
              rw [← h] at hdone
              simp at hdone
  | WaitingForCache =>
    cases r with
    | false =>
      simp [procCycle, hst, Processor.handle_msg] at h
      refine ⟨?_, ?_⟩
      · rw [← h]
        simp [procPot, procSlack, hst]
        try omega
      · intro hdone
        rw [← h] at hdone
        simp [hst] at hdone
    | true =>
      by_cases hrest : p.instructions = []
      · simp [procCycle, hst, Processor.handle_msg, Processor.proceed, hrest] at h
        refine ⟨?_, ?_⟩
        · rw [← h]
          simp [procPot, procSlack, hst, hrest, sumOther]
          try omega
        · intro hdone
          rw [← h]
      · simp [procCycle, hst, Processor.handle_msg, Processor.proceed, hrest] at h
        refine ⟨?_, ?_⟩
        · rw [← h]
          simp [procPot, procSlack, hst]
          try omega
        · intro hdone
          rw [← h] at hdone
          simp [hrest] at hdone
  | RequestResolved =>
    cases r with
    | true => simp [procCycle, hst, Processor.handle_msg] at h
    | false =>
      by_cases hrest : p.instructions = []
      · simp [procCycle, hst, Processor.handle_msg, Processor.proceed, hrest] at h
        refine ⟨?_, ?_⟩
        · rw [← h]
          simp [procPot, procSlack, hst, hrest, sumOther]
          try omega
        · intro hdone
          rw [← h]
      · simp [procCycle, hst, Processor.handle_msg, Processor.proceed, hrest] at h
        refine ⟨?_, ?_⟩
        · rw [← h]
          simp [procPot, procSlack, hst]
          try omega
        · intro hdone
          rw [← h] at hdone
          simp [hrest] at hdone
  | ExecutingOther t =>
    cases r with
    | true => simp [procCycle, hst, Processor.handle_msg] at h
    | false =>
      by_cases ht : t - 1 = 0
      · by_cases hrest : p.instructions = []
        · simp [procCycle, hst, Processor.handle_msg, ht, Processor.proceed, hrest] at h
          refine ⟨?_, ?_⟩
          · rw [← h]
            simp [procPot, procSlack, hst, hrest, sumOther]
            try omega
          · intro hdone
            rw [← h]
        · simp [procCycle, hst, Processor.handle_msg, ht, Processor.proceed, hrest] at h
          refine ⟨?_, ?_⟩
          · rw [← h]
            simp [procPot, procSlack, hst]
            try omega
          · intro hdone
            rw [← h] at hdone
            simp [hrest] at hdone
      · simp [procCycle, hst, Processor.handle_msg, ht] at h
        refine ⟨?_, ?_⟩
        · rw [← h]
          simp [procPot, procSlack, hst]
          try omega
        · intro hdone
          rw [← h] at hdone
          simp at hdone

theorem runProc_done (p : Processor) (rs : List Bool) (hd : p.state = .Done) :
    runProc p rs = some p := by
  induction rs with
  | nil => rfl
  | cons r rs ih => simp [runProc, procCycle_done p r hd, ih]

theorem runProc_pot (rs : List Bool) (p p1 : Processor)
    (h : runProc p rs = some p1) (hnd : p1.state ≠ .Done) :
    procPot p1 = procPot p + rs.length := by
  induction rs generalizing p with
  | nil =>
    simp [runProc] at h
    rw [h]
    simp
  | cons r rs ih =>
    simp only [runProc, Option.bind_eq_bind] at h
    cases hc : procCycle p r with
    | none => rw [hc] at h; simp at h
    | some q =>
      rw [hc] at h
      simp only [Option.some_bind] at h
      have hpnd : p.state ≠ .Done := by
        intro hd
        rw [procCycle_done p r hd] at hc
        have hq : q = p := (Option.some_inj.mp hc).symm
        rw [runProc_done q rs (hq ▸ hd)] at h
        exact hnd ((Option.some_inj.mp h) ▸ (hq ▸ hd))
      have hqnd : q.state ≠ .Done := by
        intro hd
        rw [runProc_done q rs hd] at h
        exact hnd ((Option.some_inj.mp h) ▸ hd)
      have hstep := procCycle_step p r q hpnd hc
      have hrest := ih q h
      rw [hrest, hstep.1, List.length_cons]
      push_cast
      ring

/-- C7: conservation for one core.  Running a processor through cycles exactly
as the driver does (`procCycle` per cycle; the environment resolves at most one
outstanding request per cycle), if the processor is not `Done` after the first
`rs.length` cycles and becomes `Done` on the next cycle, then
`loads + stores + Σ compute_cycles(Other) + wait_cycles` equals
`rs.length + 1` — the total number of cycles the core ran, which is exactly
the completion cycle the driver records (the first tick phase that observes
`Done`).  The instruction stream is fully consumed at that point. -/
theorem proc_conservation (insts : List Instr) (rs : List Bool) (r : Bool)
    (p1 p2 : Processor)
    (h1 : runProc (Processor.new 0 0 insts) rs = some p1)
    (h2 : p1.state ≠ .Done)
    (h3 : procCycle p1 r = some p2)
    (h4 : p2.state = .Done) :
    p2.num_loads + p2.num_stores + sumOther insts + p2.num_wait_cycles =
      rs.length + 1 ∧ p2.instructions = [] := by
  have hpot1 := runProc_pot rs _ p1 h1 h2
  have hpot0 : procPot (Processor.new 0 0 insts) = -sumOther insts := by
    simp [procPot, Processor.new, procSlack]
  obtain ⟨hstep, hdone⟩ := procCycle_step p1 r p2 h2 h3
  have hinsts : p2.instructions = [] := hdone h4
  have hpot2 : procPot p2 =
      p2.num_loads + p2.num_stores + p2.num_wait_cycles := by
    simp [procPot, h4, procSlack, hinsts, sumOther]
  refine ⟨?_, hinsts⟩
  rw [hstep, hpot1, hpot0] at hpot2
  omega

/-- Witness for C7: a single `Read` resolved in its issue cycle completes in
one cycle with one load and no wait cycles. -/
theorem proc_conservation_witness :
    (∃ p2, procCycle (Processor.new 0 0 [.Read ⟨0⟩]) true = some p2 ∧
      p2.num_loads + p2.num_stores + sumOther [.Read ⟨0⟩] + p2.num_wait_cycles =
        ([] : List Bool).length + 1 ∧ p2.instructions = []) := by
  have hp2 : procCycle (Processor.new 0 0 [.Read ⟨0⟩]) true =
      some { id := 0, state := .Done, instructions := [], cache_id := 0,
             num_loads := 1, num_stores := 0, num_wait_cycles := 0 } := by decide
  exact ⟨_, hp2,
    proc_conservation [.Read ⟨0⟩] [] true _ _ rfl (by decide) hp2 rfl⟩

/-! ### Traffic-counter lemmas -/

theorem access_cached_traffic (c : Cache) (a : Addr) (c2 : Cache)
    (h : c.access_cached a = some c2) :
    c2.amt_issued_bus_traffic = c.amt_issued_bus_traffic := by
  obtain ⟨i, t, hpos⟩ : ∃ i t, a.pos c.specs = (i, t) := ⟨_, _, rfl⟩
  cases hset : ({ c with num_hits := c.num_hits + 1 } : Cache).setAt i with
  | none => simp [Cache.access_cached, hpos, hset] at h
  | some set =>
    cases htb : touchB set.blocks t (set.mru_ctr + 1) with
    | none => simp [Cache.access_cached, hpos, hset, htb] at h
    | some l2 =>
      simp [Cache.access_cached, hpos, hset, htb] at h
      rw [← h]
      rfl

theorem access_uncached_traffic (c : Cache) (a : Addr) (st : BlockState) (c2 : Cache)
    (h : c.access_uncached a st = some c2) :
    c2.amt_issued_bus_traffic = c.amt_issued_bus_traffic := by
  obtain ⟨i, t, hpos⟩ : ∃ i t, a.pos c.specs = (i, t) := ⟨_, _, rfl⟩
  cases hset : ({ c with num_misses := c.num_misses + 1 } : Cache).setAt i with
  | none => simp [Cache.access_uncached, hpos, hset] at h
  | some set =>
    by_cases hful : set.blocks.length = c.specs.cache_assoc.toNat
    · cases hmin : minB set.blocks with
      | none => simp [Cache.access_uncached, hpos, hset, hful, hmin] at h
      | some lru =>
        simp [Cache.access_uncached, hpos, hset, hful, hmin] at h
        rw [← h]
        rfl
    · simp [Cache.access_uncached, hpos, hset, hful] at h
      rw [← h]
      rfl

theorem set_state_of_traffic (c : Cache) (a : Addr) (st : BlockState) (c2 : Cache)
    (h : c.set_state_of a st = some c2) :
    c2.amt_issued_bus_traffic = c.amt_issued_bus_traffic := by
  obtain ⟨i, t, hpos⟩ : ∃ i t, a.pos c.specs = (i, t) := ⟨_, _, rfl⟩
  cases hset : c.setAt i with
  | none => simp [Cache.set_state_of, hpos, hset] at h
  | some set =>
    cases hsb : setStB set.blocks t st with
    | none => simp [Cache.set_state_of, hpos, hset, hsb] at h
    | some l2 =>
      simp [Cache.set_state_of, hpos, hset, hsb] at h
      rw [← h]
      rfl

theorem handle_pr_req_traffic (c : Cache) (req : PrReq) (c2 : Cache)
    (msgs : List (Int × Msg)) (h : c.handle_pr_req req = some (c2, msgs)) :
    c2.amt_issued_bus_traffic = c.amt_issued_bus_traffic := by
  cases req with
  | Read a =>
    cases hst : c.state_of a with
    | none => simp [Cache.handle_pr_req, hst] at h
    | some st =>
      cases st with
      | MESI_Invalid =>
        simp [Cache.handle_pr_req, hst, Prod.mk.injEq] at h
        rw [← h.1]
      | Dragon_Invalid =>
        simp [Cache.handle_pr_req, hst, Prod.mk.injEq] at h
        rw [← h.1]
      | MESI_Shared | MESI_Exclusive | MESI_Modified | Dragon_SharedClean
      | Dragon_SharedModified | Dragon_Exclusive | Dragon_Modified =>
        cases hac : c.access_cached a with
        | none => simp [Cache.handle_pr_req, hst, hac] at h
        | some c1 =>
          simp [Cache.handle_pr_req, hst, hac, Prod.mk.injEq] at h
          rw [← h.1]
          exact access_cached_traffic c a c1 hac
  | Write a =>
    cases hst : c.state_of a with
    | none => simp [Cache.handle_pr_req, hst] at h
    | some st =>
      cases st with
      | MESI_Invalid =>
        cases hf : c.access_causes_flush a with
        | none => simp [Cache.handle_pr_req, hst, hf] at h
        | some f =>
          cases f with
          | true =>
            simp [Cache.handle_pr_req, hst, hf, Prod.mk.injEq] at h
            rw [← h.1]
          | false =>
            cases huc : c.access_uncached a .MESI_Modified with
            | none => simp [Cache.handle_pr_req, hst, hf, huc] at h
            | some c1 =>
              simp [Cache.handle_pr_req, hst, hf, huc, Prod.mk.injEq] at h
              rw [← h.1]
              exact access_uncached_traffic c a _ c1 huc
      | Dragon_Invalid =>
        simp [Cache.handle_pr_req, hst, Prod.mk.injEq] at h
        rw [← h.1]
      | MESI_Shared =>
        cases hss : c.set_state_of a .MESI_Modified with
        | none => simp [Cache.handle_pr_req, hst, hss] at h
        | some c1 =>
          cases hac : c1.access_cached a with
          | none => simp [Cache.handle_pr_req, hst, hss, hac] at h
          | some c3 =>
            simp [Cache.handle_pr_req, hst, hss, hac, Prod.mk.injEq] at h
            rw [← h.1]
            exact (access_cached_traffic c1 a c3 hac).trans
              (set_state_of_traffic c a _ c1 hss)
      | MESI_Exclusive =>
        cases hss : c.set_state_of a .MESI_Modified with
        | none => simp [Cache.handle_pr_req, hst, hss] at h
        | some c1 =>
          cases hac : c1.access_cached a with
          | none => simp [Cache.handle_pr_req, hst, hss, hac] at h
          | some c3 =>
            simp [Cache.handle_pr_req, hst, hss, hac, Prod.mk.injEq] at h
            rw [← h.1]
            exact (access_cached_traffic c1 a c3 hac).trans
              (set_state_of_traffic c a _ c1 hss)
      | Dragon_Exclusive =>
        cases hss : c.set_state_of a .Dragon_Modified with
        | none => simp [Cache.handle_pr_req, hst, hss] at h
        | some c1 =>
          cases hac : c1.access_cached a with
          | none => simp [Cache.handle_pr_req, hst, hss, hac] at h
          | some c3 =>
            simp [Cache.handle_pr_req, hst, hss, hac, Prod.mk.injEq] at h
            rw [← h.1]
            exact (access_cached_traffic c1 a c3 hac).trans
              (set_state_of_traffic c a _ c1 hss)
      | MESI_Modified | Dragon_Modified =>
        cases hac : c.access_cached a with
        | none => simp [Cache.handle_pr_req, hst, hac] at h
        | some c1 =>
          simp [Cache.handle_pr_req, hst, hac, Prod.mk.injEq] at h
          rw [← h.1]
          exact access_cached_traffic c a c1 hac
      | Dragon_SharedClean | Dragon_SharedModified =>
        simp [Cache.handle_pr_req, hst, Prod.mk.injEq] at h
        rw [← h.1]

theorem handle_bus_sig_bus_locked_traffic (c : Cache) (sig : BusSignal)
    (c2 : Cache) (msgs : List (Int × Msg))
    (h : c.handle_bus_sig_bus_locked sig = some (c2, msgs)) :
    c2.amt_issued_bus_traffic = c.amt_issued_bus_traffic + c.specs.block_size := by
  cases sig with
  | BusRd a =>
    cases hst : c.state_of a with
    | none => simp [Cache.handle_bus_sig_bus_locked, hst] at h
    | some st =>
      cases st with
      | MESI_Modified =>
        cases hss : c.set_state_of a .MESI_Shared with
        | none => simp [Cache.handle_bus_sig_bus_locked, hst, hss] at h
        | some c1 =>
          simp [Cache.handle_bus_sig_bus_locked, hst, hss, Prod.mk.injEq] at h
          rw [← h.1]
          show c1.amt_issued_bus_traffic + c.specs.block_size =
            c.amt_issued_bus_traffic + c.specs.block_size
          rw [set_state_of_traffic c a _ c1 hss]
      | MESI_Invalid | MESI_Shared | MESI_Exclusive | Dragon_Invalid
      | Dragon_SharedClean | Dragon_SharedModified | Dragon_Exclusive
      | Dragon_Modified =>
        simp [Cache.handle_bus_sig_bus_locked, hst] at h
  | BusRdX a =>
    cases hst : c.state_of a with
    | none => simp [Cache.handle_bus_sig_bus_locked, hst] at h
    | some st =>
      cases st with
      | MESI_Exclusive =>
        cases hss : c.set_state_of a .MESI_Invalid with
        | none => simp [Cache.handle_bus_sig_bus_locked, hst, hss] at h
        | some c1 =>
          simp [Cache.handle_bus_sig_bus_locked, hst, hss, Prod.mk.injEq] at h
          rw [← h.1]
          show c1.amt_issued_bus_traffic + c.specs.block_size =
            c.amt_issued_bus_traffic + c.specs.block_size
          rw [set_state_of_traffic c a _ c1 hss]
      | MESI_Modified =>
        cases hss : c.set_state_of a .MESI_Invalid with
        | none => simp [Cache.handle_bus_sig_bus_locked, hst, hss] at h
        | some c1 =>
          simp [Cache.handle_bus_sig_bus_locked, hst, hss, Prod.mk.injEq] at h
          rw [← h.1]
          show c1.amt_issued_bus_traffic + c.specs.block_size =
            c.amt_issued_bus_traffic + c.specs.block_size
          rw [set_state_of_traffic c a _ c1 hss]
      | MESI_Invalid | MESI_Shared | Dragon_Invalid
      | Dragon_SharedClean | Dragon_SharedModified | Dragon_Exclusive
      | Dragon_Modified =>
        simp [Cache.handle_bus_sig_bus_locked, hst] at h
  | BusUpd a =>
    cases hst : c.state_of a with
    | none => simp [Cache.handle_bus_sig_bus_locked, hst] at h
    | some st =>
      cases st <;> simp [Cache.handle_bus_sig_bus_locked, hst] at h

/-- Counterexample to C8 as stated: a `Write` to a `Shared` block in
`Cache::handle_pr_req` issues a `BusRdX` signal on the bus but leaves
`amt_issued_bus_traffic` unchanged (and `block_size` is non-zero), so not every
path that sends a `BusRd`/`BusRdX`/`BusUpd` signal adds `block_size` to the
issuing cache's counter. -/
theorem traffic_fast_path_cex :
    (cacheShared.handle_pr_req (.Write ⟨0⟩)).map (fun r => r.2) =
      some [(0, .CacheToBus 0 (.BusSig 0 (.BusRdX ⟨0⟩))),
            (0, .CacheToProc 0 .RequestResolved)] ∧
    (cacheShared.handle_pr_req (.Write ⟨0⟩)).map
      (fun r => r.1.amt_issued_bus_traffic) =
      some cacheShared.amt_issued_bus_traffic ∧
    cacheShared.specs.block_size ≠ 0 := by decide

/-- C8 amended: `issued_bus_data_bytes` is incremented by `block_size` on the
bus transactions performed while holding the bus — each MESI `Invalid`
resolution of `Cache::handle_pr_req_bus_locked` (cache-to-cache `BusRd` fetch,
memory `BusRdX` fetch, and the write-miss flush) and every snoop-forced
write-back in `Cache::handle_bus_sig_bus_locked` — while `Cache::handle_pr_req`
never changes the counter; in particular the fast-path `BusRdX` upgrades
(`Shared` write, `Invalid` write with a free way) are not charged. -/
theorem traffic_charging (c : Cache) (a : Addr) :
    (∀ req c2 msgs, c.handle_pr_req req = some (c2, msgs) →
      c2.amt_issued_bus_traffic = c.amt_issued_bus_traffic) ∧
    (c.specs.protocol = .MESI → c.state_of a = some .MESI_Invalid →
      c.specs.cache_assoc.toNat ≠ 0 →
      ((c.handle_pr_req_bus_locked (.Read a) (some true)).map
          (fun r => r.1.amt_issued_bus_traffic) =
        some (c.amt_issued_bus_traffic + c.specs.block_size)) ∧
      ((c.handle_pr_req_bus_locked (.Read a) (some false)).map
          (fun r => r.1.amt_issued_bus_traffic) =
        some (c.amt_issued_bus_traffic + c.specs.block_size)) ∧
      (∀ ohb, (c.handle_pr_req_bus_locked (.Write a) ohb).map
          (fun r => r.1.amt_issued_bus_traffic) =
        some (c.amt_issued_bus_traffic + c.specs.block_size))) ∧
    (∀ sig c2 msgs, c.handle_bus_sig_bus_locked sig = some (c2, msgs) →
      c2.amt_issued_bus_traffic = c.amt_issued_bus_traffic + c.specs.block_size) := by
  refine ⟨?_, ?_, ?_⟩
  · exact fun req c2 msgs h => handle_pr_req_traffic c req c2 msgs h
  · intro hM hs hassoc
    obtain ⟨i, t, set, hpos, hset⟩ := state_of_invalid_elim c a _ hs
    have resolve : ∀ st : BlockState,
        ∃ c2, c.access_uncached a st = some c2 ∧
          c2.amt_issued_bus_traffic = c.amt_issued_bus_traffic := by
      intro st
      by_cases hful : set.blocks.length = c.specs.cache_assoc.toNat
      · have hne : set.blocks ≠ [] := by
          intro hnil
          rw [hnil] at hful
          exact hassoc hful.symm
        obtain ⟨lru, _, huc, _⟩ :=
          access_uncached_full_spec c a st i t set hpos hset hful hne
        exact ⟨_, huc, access_uncached_traffic c a st _ huc⟩
      · obtain ⟨huc, _⟩ := access_uncached_nf_spec c a st i t set hpos hset hful
        exact ⟨_, huc, access_uncached_traffic c a st _ huc⟩
    obtain ⟨cS, hucS, htrS⟩ := resolve .MESI_Shared
    obtain ⟨cE, hucE, htrE⟩ := resolve .MESI_Exclusive
    obtain ⟨cM, hucM, htrM⟩ := resolve .MESI_Modified
    refine ⟨?_, ?_, ?_⟩
    · simp [Cache.handle_pr_req_bus_locked, hs, hM, hucS, htrS]
    · simp [Cache.handle_pr_req_bus_locked, hs, hM, hucE, htrE]
    · intro ohb
      simp [Cache.handle_pr_req_bus_locked, hs, hM, hucM, htrM]
  · exact fun sig c2 msgs h => handle_bus_sig_bus_locked_traffic c sig c2 msgs h

/-- Witness for the amended C8: a cold write-miss resolution charges exactly
`block_size` bytes of bus traffic. -/
theorem traffic_charging_witness :
    (cacheEmptySet.handle_pr_req_bus_locked (.Write ⟨0⟩) none).map
      (fun r => r.1.amt_issued_bus_traffic) =
      some (cacheEmptySet.amt_issued_bus_traffic + cacheEmptySet.specs.block_size) :=
  ((traffic_charging cacheEmptySet ⟨0⟩).2.1 (by decide) (by decide) (by decide)).2.2
    none

/-- C9 (code bug): `Addr::pos` decomposes every address with
`num_sets = cache_size / (block_size · cache_assoc)` — 64 under the default
configuration, with `set_index = addr mod 64` and `tag = addr div 64` — but
`Cache::new` allocates `cache_size / cache_assoc = 2048` sets, forgetting the
`block_size` factor, so the set array does not have `num_sets` entries (only
the first 64 of the 2048 are ever addressed). -/
theorem cache_new_set_count :
    (Cache.new 0 0 SystemSpec.default).data.length = 2048 ∧
    SystemSpec.default.cache_size.tdiv
      (SystemSpec.default.block_size * SystemSpec.default.cache_assoc) = 64 ∧
    (∀ a : Addr, a.pos SystemSpec.default = (a.val.tmod 64, a.val.tdiv 64)) ∧
    (2048 : Nat) ≠ 64 := by
  refine ⟨?_, by decide, fun a => rfl, by decide⟩
  simp [Cache.new, List.length_replicate]
  decide

/-- C10: evicting a block on a miss — whatever coherence state the victim is
in, `Modified` and dirty states included, since `Cache::access_uncached` never
inspects it — removes the minimal-counter resident block and increments
`invalidations` (and counts the miss), and nothing else: `hits`,
`issued_bus_data_bytes`, `private/shared` counters, the controller state, the
buffers, and every other set are unchanged, and the surrounding write-miss
resolution `Cache::handle_pr_req_bus_locked` emits exactly the same two
messages (the `BusRdX` and the `t_flush` completion) that it emits without an
eviction — no extra bus message and no extra write-back latency. -/
theorem eviction_frame (c : Cache) (a : Addr) (i t : Int) (set : CacheSet)
    (st : BlockState) (hpos : a.pos c.specs = (i, t)) (hset : c.setAt i = some set)
    (hful : set.blocks.length = c.specs.cache_assoc.toNat)
    (hne : set.blocks ≠ []) :
    (∃ lru c2, minB set.blocks = some lru ∧
      c.access_uncached a st = some c2 ∧
      c2.amt_issued_bus_traffic = c.amt_issued_bus_traffic ∧
      c2.num_hits = c.num_hits ∧
      c2.num_private_accesses = c.num_private_accesses ∧
      c2.num_shared_accesses = c.num_shared_accesses ∧
      c2.num_invalidations = c.num_invalidations + 1 ∧
      c2.num_misses = c.num_misses + 1 ∧
      c2.state = c.state ∧
      c2.bus_signals_queue = c.bus_signals_queue ∧
      c2.pr_sig_buffer = c.pr_sig_buffer ∧
      c2.setAt i = some
        { blocks := insertB (removeB set.blocks lru.1) t
                      (set.mru_ctr + 1, { tag := t, state := st }),
          mru_ctr := set.mru_ctr + 1 } ∧
      (∀ j, j ≠ i → c2.setAt j = c.setAt j)) ∧
    (c.specs.protocol = .MESI → lookupB set.blocks t = none →
      ∀ ohb, (c.handle_pr_req_bus_locked (.Write a) ohb).map (fun r => r.2) =
        some [(0, .CacheToBus c.id (.BusSig c.id (.BusRdX a))),
              (c.specs.t_flush - 1, .CacheToCache c.id .PrReqResolved)]) := by
  constructor
  · obtain ⟨lru, hlru, huc, hso⟩ :=
      access_uncached_full_spec c a st i t set hpos hset hful hne
    have hset3 : ({ c with num_misses := c.num_misses + 1, num_invalidations := c.num_invalidations + 1 } : Cache).setAt i = some set := hset
    refine ⟨lru, _, hlru, huc, rfl, rfl, rfl, rfl, rfl, rfl, rfl, rfl, rfl,
      setAt_putSet_self _ i set _ hset3, ?_⟩
    intro j hj
    have hi : 0 ≤ i := by
      by_contra hneg
      rw [Cache.setAt, if_neg hneg] at hset
      cases hset
    by_cases hj0 : 0 ≤ j
    · rw [Cache.setAt, Cache.setAt, if_pos hj0, if_pos hj0]
      show (c.data.set i.toNat _)[j.toNat]? = c.data[j.toNat]?
      rw [List.getElem?_set_ne]
      intro heq
      exact hj (by omega)
    · rw [Cache.setAt, Cache.setAt, if_neg hj0, if_neg hj0]
  · intro hM hlk ohb
    have hs : c.state_of a = some .MESI_Invalid := by
      simp [Cache.state_of, hpos, hset, hlk, hM]
    obtain ⟨lru, hlru, huc, hso⟩ :=
      access_uncached_full_spec c a .MESI_Modified i t set hpos hset hful hne
    simp [Cache.handle_pr_req_bus_locked, hs, hM, huc]

/-- Witness for C10 at a concrete full set with `Modified` (dirty) victims. -/
theorem eviction_frame_witness :
    ∃ lru c2,
      minB [(1, (3, { tag := 1, state := .MESI_Modified })),
            (2, (5, { tag := 2, state := .MESI_Modified }))] = some lru ∧
      cacheFullSet.access_uncached ⟨0⟩ .MESI_Modified = some c2 ∧
      c2.amt_issued_bus_traffic = cacheFullSet.amt_issued_bus_traffic ∧
      c2.num_hits = cacheFullSet.num_hits ∧
      c2.num_private_accesses = cacheFullSet.num_private_accesses ∧
      c2.num_shared_accesses = cacheFullSet.num_shared_accesses ∧
      c2.num_invalidations = cacheFullSet.num_invalidations + 1 ∧
      c2.num_misses = cacheFullSet.num_misses + 1 ∧
      c2.state = cacheFullSet.state ∧
      c2.bus_signals_queue = cacheFullSet.bus_signals_queue ∧
      c2.pr_sig_buffer = cacheFullSet.pr_sig_buffer ∧
      c2.setAt 0 = some
        { blocks := insertB
            (removeB [(1, (3, { tag := 1, state := .MESI_Modified })),
                      (2, (5, { tag := 2, state := .MESI_Modified }))] lru.1) 0
            (5 + 1, { tag := 0, state := .MESI_Modified }),
          mru_ctr := 5 + 1 } ∧
      (∀ j, j ≠ 0 → c2.setAt j = cacheFullSet.setAt j) :=
  (eviction_frame cacheFullSet ⟨0⟩ 0 0
    { blocks := [(1, (3, { tag := 1, state := .MESI_Modified })),
                 (2, (5, { tag := 2, state := .MESI_Modified }))], mru_ctr := 5 }
    .MESI_Modified (by decide) (by decide) (by decide) (by decide)).1

end CacheSim
